import Mathlib

/-!
# Quake 3 log parser

A shallow embedding of `internal/parser/parser_quake.go`.

* Go strings are modelled by Lean `String` (valid UTF-8 text); the regular
  expressions of the source work on the characters of the string.
* Go `int` is modelled by `Int`: a counter changes by one per handled line, so
  it stays far inside the 64-bit range.
* A Go map is a reference.  The parser copies `currentMatch` (a struct that
  holds two maps) into `allMatches`, so the copy and `currentMatch` share
  their maps.  The embedding keeps the maps in a heap and a `QuakeMatch`
  holds addresses into it; `none` is the nil map.
* A run-time panic (assignment to an entry of a nil map) is the result `none`.
-/

namespace QuakeLog

/-! ## Go maps of type `map[string]int` -/

/-- Contents of a `map[string]int`, as an association list. -/
abbrev GoMap := List (String × Int)

namespace GoMap

/-- The two-valued read `v, ok := m[k]`; `none` when the key is absent. -/
def lookup : GoMap → String → Option Int
  | [], _ => none
  | (k', v) :: m, k => if k' = k then some v else lookup m k

/-- The read `m[k]`: the zero value when the key is absent. -/
def get (m : GoMap) (k : String) : Int := (lookup m k).getD 0

/-- The contents after `m[k] = v`. -/
def set : GoMap → String → Int → GoMap
  | [], k, v => [(k, v)]
  | (k', v') :: m, k, v => if k' = k then (k, v) :: m else (k', v') :: set m k v

/-- Sum of all the values of the map. -/
def sumValues (m : GoMap) : Int := (m.map Prod.snd).sum

end GoMap

/-- A value of map type: `none` is the nil map, `some a` the map made at address `a`. -/
abbrev MapRef := Option Nat

/-- The maps made so far; `make` puts a new map at the end. -/
abbrev Heap := List GoMap

/-- Contents of the map behind a reference; a nil map reads as empty. -/
def Heap.read (h : Heap) : MapRef → GoMap
  | none => []
  | some a => h.getD a []

/-- The statement `m[k] = v`; on a nil map it panics. -/
def Heap.assign (h : Heap) : MapRef → String → Int → Option Heap
  | none, _, _ => none
  | some a, k, v => some (h.set a (GoMap.set (h.getD a []) k v))

/-- The statements `m[k]++` (`d = 1`) and `m[k]--` (`d = -1`). -/
def Heap.incr (h : Heap) (r : MapRef) (k : String) (d : Int) : Option Heap :=
  Heap.assign h r k (GoMap.get (Heap.read h r) k + d)

/-! ## Regular expressions

Only the constructs that the three patterns of the source use.  Matching is
leftmost-first, as in Go's `regexp`: the match starts as early as possible and
among the matches starting there it is the one a backtracking matcher finds
first, so a `+` takes as many characters as the rest of the pattern allows.
-/

/-- Regular expressions: literal text, `c+` for a character class `c`, sequence, capture group. -/
inductive Regex where
  | lit (t : List Char)
  | plus (p : Char → Bool)
  | seq (a b : Regex)
  | group (a : Regex)

/-- The rest of the text after the literal `t`, when the text starts with `t`. -/
def stripLit : List Char → List Char → Option (List Char)
  | [], s => some s
  | _ :: _, [] => none
  | c :: t, d :: s => if c = d then stripLit t s else none

/-- All ways `c+` matches at the start of the text, each given by the rest of the text it
leaves, the longest match first. -/
def plusRests (p : Char → Bool) : List Char → List (List Char)
  | [] => []
  | c :: s => if p c then plusRests p s ++ [s] else []

/-- The text consumed between `s` and its suffix `r`. -/
def consumed (s r : List Char) : String := String.mk (s.take (s.length - r.length))

/-- All matches of the expression at the start of the text, in the order a backtracking
matcher tries them: the rest of the text and the text of the capture groups. -/
def Regex.run : Regex → List Char → List (List Char × List String)
  | .lit t, s =>
    match stripLit t s with
    | some r => [(r, [])]
    | none => []
  | .plus p, s => (plusRests p s).map fun r => (r, [])
  | .seq a b, s =>
    (Regex.run a s).flatMap fun x => (Regex.run b x.1).map fun y => (y.1, x.2 ++ y.2)
  | .group a, s => (Regex.run a s).map fun x => (x.1, consumed s x.1 :: x.2)

/-- The leftmost match in the text: the matched text followed by the capture groups,
or the empty list when the expression matches nowhere. -/
def Regex.find (re : Regex) : List Char → List String
  | [] =>
    match Regex.run re [] with
    | x :: _ => consumed [] x.1 :: x.2
    | [] => []
  | c :: s =>
    match Regex.run re (c :: s) with
    | x :: _ => consumed (c :: s) x.1 :: x.2
    | [] => Regex.find re s

/-- Go's `re.FindStringSubmatch(s)`; the nil slice is the empty list. -/
def FindStringSubmatch (re : Regex) (s : String) : List String := Regex.find re s.toList

/-- A sequence of expressions. -/
def Regex.cat : List Regex → Regex
  | [] => .lit []
  | [a] => a
  | a :: b :: rest => .seq a (Regex.cat (b :: rest))

/-- The class `\d`. -/
def isDigit (c : Char) : Bool := decide (48 ≤ c.toNat) && decide (c.toNat ≤ 57)

/-- The class `\s`, which is `[\t\n\f\r ]`. -/
def isSpace (c : Char) : Bool :=
  c.toNat == 9 || c.toNat == 10 || c.toNat == 12 || c.toNat == 13 || c.toNat == 32

/-- The pattern `\d+:\d+\s+([^\s:]+):` of `ParseLogContent`. -/
def eventRe : Regex :=
  Regex.cat [.plus isDigit, .lit ":".toList, .plus isDigit, .plus isSpace,
    .group (.plus fun c => !isSpace c && c != ':'), .lit ":".toList]

/-- The pattern `(\d+:\d+) Kill: \d+ \d+ \d+: (.+) killed (.+) by ([^\s]+)` of the kill handler. -/
def killRe : Regex :=
  Regex.cat [.group (Regex.cat [.plus isDigit, .lit ":".toList, .plus isDigit]),
    .lit " Kill: ".toList, .plus isDigit, .lit " ".toList, .plus isDigit, .lit " ".toList,
    .plus isDigit, .lit ": ".toList, .group (.plus fun c => c != '\n'),
    .lit " killed ".toList, .group (.plus fun c => c != '\n'), .lit " by ".toList,
    .group (.plus fun c => !isSpace c)]

/-- The pattern `\d+:\d+ ClientUserinfoChanged: \d+ n\\([^\\]+)\\` of the user info handler. -/
def clientRe : Regex :=
  Regex.cat [.plus isDigit, .lit ":".toList, .plus isDigit,
    .lit " ClientUserinfoChanged: ".toList, .plus isDigit, .lit " n\\".toList,
    .group (.plus fun c => c != '\\'), .lit "\\".toList]

/-! ## The parser -/

/-- The constant `WORLD_ENTITY`. -/
def WORLD_ENTITY : String := "<world>"

/-- The struct `QuakeMatch`; its two maps are references. -/
structure QuakeMatch where
  TotalKills : Int
  PlayerScores : MapRef
  CauseOfDeath : MapRef
  deriving DecidableEq, Repr

/-- The struct `QuakeParsedContent`. -/
structure QuakeParsedContent where
  AllMatches : List QuakeMatch
  deriving DecidableEq, Repr

/-- The struct `QuakeLogParser`, together with the heap its maps live in.  The field
`eventHandlers` never changes after `NewQuakeLogParser` and is the function `eventHandlers`. -/
structure QuakeLogParser where
  gameRunning : Bool
  currentMatch : QuakeMatch
  allMatches : List QuakeMatch
  heap : Heap
  deriving DecidableEq, Repr

/-- The four implementations of the interface `QuakeEventHandler`. -/
inductive QuakeEventHandler where
  | initGameEventHandler
  | shutdownGameEventHandler
  | killEventHandler
  | clientUserinfoChangedEventHandler
  deriving DecidableEq, Repr

/-- The table that `registerEventHandlers` fills. -/
def eventHandlers (eventKey : String) : Option QuakeEventHandler :=
  if eventKey = "InitGame" then some .initGameEventHandler
  else if eventKey = "ShutdownGame" then some .shutdownGameEventHandler
  else if eventKey = "Kill" then some .killEventHandler
  else if eventKey = "ClientUserinfoChanged" then some .clientUserinfoChangedEventHandler
  else none

/-- The function `NewQuakeLogParser`: `currentMatch` is the zero value, its maps are nil. -/
def NewQuakeLogParser : QuakeLogParser :=
  { gameRunning := false
    currentMatch := { TotalKills := 0, PlayerScores := none, CauseOfDeath := none }
    allMatches := []
    heap := [] }

/-- The method `initGameEventHandler.HandleEvent`: a running match is appended to
`allMatches`, then `currentMatch` is a new record whose two maps `make` puts at the end of
the heap. -/
def initGameEventHandler.HandleEvent (parser : QuakeLogParser) (_line : String) :
    Option QuakeLogParser :=
  let allMatches :=
    if parser.gameRunning then parser.allMatches ++ [parser.currentMatch] else parser.allMatches
  some
    { gameRunning := true
      currentMatch :=
        { TotalKills := 0
          PlayerScores := some parser.heap.length
          CauseOfDeath := some (parser.heap.length + 1) }
      allMatches := allMatches
      heap := parser.heap ++ [[], []] }

/-- The method `shutdownGameEventHandler.HandleEvent`: the struct `currentMatch` is copied
to the end of `allMatches`; the copy holds the same two maps. -/
def shutdownGameEventHandler.HandleEvent (parser : QuakeLogParser) (_line : String) :
    Option QuakeLogParser :=
  if parser.gameRunning then
    some { parser with
      allMatches := parser.allMatches ++ [parser.currentMatch]
      gameRunning := false }
  else some parser

/-- The method `killEventHandler.HandleEvent`.  It does not read `gameRunning`. -/
def killEventHandler.HandleEvent (parser : QuakeLogParser) (line : String) :
    Option QuakeLogParser :=
  let killMatches := FindStringSubmatch killRe line
  if killMatches.length > 4 then
    let killer := killMatches.getD 2 ""
    let victim := killMatches.getD 3 ""
    let meansOfDeath := killMatches.getD 4 ""
    let scored : Option Heap :=
      if killer ≠ WORLD_ENTITY ∧ killer ≠ victim then
        Heap.incr parser.heap parser.currentMatch.PlayerScores killer 1
      else if killer = WORLD_ENTITY ∨ killer = victim then
        Heap.incr parser.heap parser.currentMatch.PlayerScores victim (-1)
      else some parser.heap
    match scored with
    | none => none
    | some h1 =>
      match Heap.incr h1 parser.currentMatch.CauseOfDeath meansOfDeath 1 with
      | none => none
      | some h2 =>
        some { parser with
          heap := h2
          currentMatch :=
            { parser.currentMatch with TotalKills := parser.currentMatch.TotalKills + 1 } }
  else some parser

/-- The method `clientUserinfoChangedEventHandler.HandleEvent`.  It does not read
`gameRunning`. -/
def clientUserinfoChangedEventHandler.HandleEvent (parser : QuakeLogParser) (line : String) :
    Option QuakeLogParser :=
  let clientMatches := FindStringSubmatch clientRe line
  if clientMatches.length > 1 then
    let playerName := clientMatches.getD 1 ""
    match GoMap.lookup (Heap.read parser.heap parser.currentMatch.PlayerScores) playerName with
    | some _ => some parser
    | none =>
      match Heap.assign parser.heap parser.currentMatch.PlayerScores playerName 0 with
      | none => none
      | some h => some { parser with heap := h }
  else some parser

/-- The interface method `HandleEvent`, dispatched on the handler. -/
def HandleEvent : QuakeEventHandler → QuakeLogParser → String → Option QuakeLogParser
  | .initGameEventHandler => initGameEventHandler.HandleEvent
  | .shutdownGameEventHandler => shutdownGameEventHandler.HandleEvent
  | .killEventHandler => killEventHandler.HandleEvent
  | .clientUserinfoChangedEventHandler => clientUserinfoChangedEventHandler.HandleEvent

/-- The handler that the loop of `ParseLogContent` invokes for a line, if any. -/
def classify (line : String) : Option QuakeEventHandler :=
  let keywords := FindStringSubmatch eventRe line
  if keywords.length ≤ 1 then none else eventHandlers (keywords.getD 1 "")

/-- One iteration of the loop of `ParseLogContent`. -/
def processLine (qp : QuakeLogParser) (line : String) : Option QuakeLogParser :=
  match classify line with
  | none => some qp
  | some handler => HandleEvent handler qp line

/-- The loop of `ParseLogContent`. -/
def processLines : QuakeLogParser → List String → Option QuakeLogParser
  | qp, [] => some qp
  | qp, line :: rest =>
    match processLine qp line with
    | none => none
    | some qp' => processLines qp' rest

/-- The end of `ParseLogContent`: a match still running is taken as ended. -/
def endOfInput (qp : QuakeLogParser) : QuakeLogParser :=
  if qp.gameRunning then
    { qp with allMatches := qp.allMatches ++ [qp.currentMatch], gameRunning := false }
  else qp

/-- The method `ParseLogContent`: the returned content and the parser as the call leaves it. -/
def ParseLogContent (qp : QuakeLogParser) (lines : List String) :
    Option (QuakeParsedContent × QuakeLogParser) :=
  match processLines qp lines with
  | none => none
  | some qp' => some ({ AllMatches := (endOfInput qp').allMatches }, endOfInput qp')

/-! ## What a caller observes -/

/-- A match record with the contents of its maps. -/
structure MatchData where
  TotalKills : Int
  PlayerScores : GoMap
  CauseOfDeath : GoMap
  deriving DecidableEq, Repr

/-- The contents of a match record in a heap. -/
def QuakeMatch.data (h : Heap) (m : QuakeMatch) : MatchData :=
  { TotalKills := m.TotalKills
    PlayerScores := Heap.read h m.PlayerScores
    CauseOfDeath := Heap.read h m.CauseOfDeath }

/-- The contents of the completed matches of a parser. -/
def QuakeLogParser.completed (qp : QuakeLogParser) : List MatchData :=
  qp.allMatches.map (QuakeMatch.data qp.heap)

/-- The contents of the current match of a parser. -/
def QuakeLogParser.current (qp : QuakeLogParser) : MatchData :=
  QuakeMatch.data qp.heap qp.currentMatch

/-- The match records that `ParseLogContent` returns on a parser fresh from
`NewQuakeLogParser`, read when the call returns; `none` when the call panics. -/
def parseFresh (lines : List String) : Option (List MatchData) :=
  match ParseLogContent NewQuakeLogParser lines with
  | none => none
  | some r => some (r.1.AllMatches.map (QuakeMatch.data r.2.heap))

/-! ## Reachable parser states -/

/-- The parser states a program can get to: it starts from `NewQuakeLogParser` and calls
`ParseLogContent`, whose loop handles one line after the other and whose end closes a
running match. -/
inductive Reachable : QuakeLogParser → Prop
  | fresh : Reachable NewQuakeLogParser
  | line {qp qp' : QuakeLogParser} (l : String) :
    Reachable qp → processLine qp l = some qp' → Reachable qp'
  | finish {qp : QuakeLogParser} : Reachable qp → Reachable (endOfInput qp)

/-- The number of matches opened so far: the completed ones and the running one. -/
def QuakeLogParser.opened (qp : QuakeLogParser) : Nat :=
  qp.allMatches.length + (if qp.gameRunning then 1 else 0)

/-- The `j`-th record holds the two maps that the `j`-th `InitGame` made. -/
def RefsInOrder (ms : List QuakeMatch) : Prop :=
  ∀ j m, ms[j]? = some m → m.PlayerScores = some (2 * j) ∧ m.CauseOfDeath = some (2 * j + 1)

/-- The shape of every reachable parser state: each opened match owns two maps of the heap,
in the order of opening, and `currentMatch` holds the maps of the match opened last (nil
maps before the first `InitGame`). -/
structure Inv (qp : QuakeLogParser) : Prop where
  heap_len : qp.heap.length = 2 * qp.opened
  done : RefsInOrder qp.allMatches
  cur_nil : qp.opened = 0 →
    qp.currentMatch.PlayerScores = none ∧ qp.currentMatch.CauseOfDeath = none
  cur_ref : 0 < qp.opened →
    qp.currentMatch.PlayerScores = some (2 * (qp.opened - 1)) ∧
      qp.currentMatch.CauseOfDeath = some (2 * (qp.opened - 1) + 1)

/-- The player whose score a kill changes. -/
def scoredPlayer (killer victim : String) : String :=
  if killer ≠ WORLD_ENTITY ∧ killer ≠ victim then killer else victim

/-- The change of that score. -/
def scoredDelta (killer victim : String) : Int :=
  if killer ≠ WORLD_ENTITY ∧ killer ≠ victim then 1 else -1

/-- What the kill handler and the user info handler leave as it is. -/
def SameShape (qp qp' : QuakeLogParser) : Prop :=
  qp'.gameRunning = qp.gameRunning ∧ qp'.allMatches = qp.allMatches ∧
    qp'.currentMatch.PlayerScores = qp.currentMatch.PlayerScores ∧
    qp'.currentMatch.CauseOfDeath = qp.currentMatch.CauseOfDeath ∧
    qp'.heap.length = qp.heap.length

/-- The parser after the line `0:00 InitGame:` on a fresh parser: a match is running. -/
def runningExample : QuakeLogParser :=
  { gameRunning := true
    currentMatch := { TotalKills := 0, PlayerScores := some 0, CauseOfDeath := some 1 }
    allMatches := []
    heap := [[], []] }

/-- The parser after the lines `11:47 InitGame:` and
`11:47 Kill: 4 2 7: Zeh killed Dono da Bola by MOD_ROCKET_SPLASH` on a fresh parser: a match
with one kill is running. -/
def scoredExample : QuakeLogParser :=
  { gameRunning := true
    currentMatch := { TotalKills := 1, PlayerScores := some 0, CauseOfDeath := some 1 }
    allMatches := []
    heap := [[("Zeh", 1)], [("MOD_ROCKET_SPLASH", 1)]] }

/-- The parser after the lines `0:00 InitGame:` and `0:01 ShutdownGame:` on a fresh parser:
no match is running, one empty match is completed, and `currentMatch` still holds the maps
of the completed record. -/
def idleExample : QuakeLogParser :=
  { gameRunning := false
    currentMatch := { TotalKills := 0, PlayerScores := some 0, CauseOfDeath := some 1 }
    allMatches := [{ TotalKills := 0, PlayerScores := some 0, CauseOfDeath := some 1 }]
    heap := [[], []] }

/-! ## The parser without the heap

What a caller can observe of a parser state is whether a match is running and the records
`ParseLogContent` would return if the input ended now.  On these two the handlers act as
follows; `processLine_view` shows that this is what the code does. -/

/-- What is observable of a parser: `gameRunning` and the records that `ParseLogContent`
returns when the input ends here. -/
def QuakeLogParser.view (qp : QuakeLogParser) : Bool × List MatchData :=
  (qp.gameRunning, (endOfInput qp).completed)

/-- The record of the match opened last after `f` is applied to it; `none` when no match was
opened yet. -/
def updateLast (f : MatchData → MatchData) : List MatchData → Option (List MatchData)
  | [] => none
  | [r] => some [f r]
  | r :: r' :: rs => (updateLast f (r' :: rs)).map fun t => r :: t

/-- A record after a kill: `TotalKills` counts it only while the match is running. -/
def MatchData.kill (running : Bool) (killer victim cause : String) (r : MatchData) : MatchData :=
  { TotalKills := if running then r.TotalKills + 1 else r.TotalKills
    PlayerScores :=
      GoMap.set r.PlayerScores (scoredPlayer killer victim)
        (GoMap.get r.PlayerScores (scoredPlayer killer victim) + scoredDelta killer victim)
    CauseOfDeath := GoMap.set r.CauseOfDeath cause (GoMap.get r.CauseOfDeath cause + 1) }

/-- A record after a user info line that names the player. -/
def MatchData.join (playerName : String) (r : MatchData) : MatchData :=
  { r with
    PlayerScores :=
      match GoMap.lookup r.PlayerScores playerName with
      | some _ => r.PlayerScores
      | none => GoMap.set r.PlayerScores playerName 0 }

/-- One line, on the observable part of the parser. -/
def viewStep (s : Bool × List MatchData) (line : String) : Option (Bool × List MatchData) :=
  match classify line with
  | none => some s
  | some .initGameEventHandler =>
    some (true, s.2 ++ [{ TotalKills := 0, PlayerScores := [], CauseOfDeath := [] }])
  | some .shutdownGameEventHandler => some (false, s.2)
  | some .killEventHandler =>
    if (FindStringSubmatch killRe line).length > 4 then
      (updateLast (MatchData.kill s.1 ((FindStringSubmatch killRe line).getD 2 "")
        ((FindStringSubmatch killRe line).getD 3 "")
        ((FindStringSubmatch killRe line).getD 4 "")) s.2).map fun t => (s.1, t)
    else some s
  | some .clientUserinfoChangedEventHandler =>
    if (FindStringSubmatch clientRe line).length > 1 then
      (updateLast (MatchData.join ((FindStringSubmatch clientRe line).getD 1 "")) s.2).map
        fun t => (s.1, t)
    else some s

/-- A sequence of lines, on the observable part of the parser. -/
def viewSteps : Bool × List MatchData → List String → Option (Bool × List MatchData)
  | s, [] => some s
  | s, line :: rest =>
    match viewStep s line with
    | none => none
    | some s' => viewSteps s' rest

/-- The line is handed to the `InitGame` handler. -/
def isInitGame (line : String) : Bool := decide (classify line = some .initGameEventHandler)

/-- The lines of each match: for every `InitGame` line, in order, that line and the lines
after it up to the next `InitGame` line. -/
def matchLines : List String → List (List String)
  | [] => []
  | line :: rest =>
    if isInitGame line then
      (line :: rest.takeWhile fun l => !isInitGame l) :: matchLines rest
    else matchLines rest

/-- The number of capture groups of an expression. -/
def Regex.groups : Regex → Nat
  | .lit _ => 0
  | .plus _ => 0
  | .seq a b => Regex.groups a + Regex.groups b
  | .group a => Regex.groups a + 1

/-- The parser after calls of `ParseLogContent` one after the other, one call for each
list of lines; `none` when a call panics. -/
def parseCalls : QuakeLogParser → List (List String) → Option QuakeLogParser
  | qp, [] => some qp
  | qp, lines :: rest =>
    match ParseLogContent qp lines with
    | none => none
    | some r => parseCalls r.2 rest

/-- The match records that `ParseLogContent` returns on the parser `qp`, read when the call
returns; `none` when the call panics. -/
def parseOn (qp : QuakeLogParser) (lines : List String) : Option (List MatchData) :=
  match ParseLogContent qp lines with
  | none => none
  | some r => some (r.1.AllMatches.map (QuakeMatch.data r.2.heap))

/-- The kill line leaves the score of `p` alone: whatever the kill pattern extracts from it,
`p` is not the killer and not the victim of `<world>`. -/
def SparesPlayer (p line : String) : Prop :=
  ∀ whole ts killer victim cause,
    FindStringSubmatch killRe line = [whole, ts, killer, victim, cause] →
    killer ≠ p ∧ ¬ (killer = WORLD_ENTITY ∧ victim = p)

/-- The user info line names the player `p`. -/
def NamesPlayer (p line : String) : Prop :=
  classify line = some .clientUserinfoChangedEventHandler ∧
    ∃ whole, FindStringSubmatch clientRe line = [whole, p]

/-! ## `internal/utils/utils.go` -/

/-- The struct `Pair`. -/
structure Pair where
  Key : String
  Value : Int
  deriving DecidableEq, Repr

/-- What the documentation of `sort.Slice` asks of `less`: a strict weak ordering. -/
structure StrictWeakOrder (less : Pair → Pair → Bool) : Prop where
  irrefl : ∀ a, less a a = false
  trans : ∀ a b c, less a b = true → less b c = true → less a c = true
  trans_not : ∀ a b c, less a b = false → less b c = false → less a c = false

/-- What Go leaves open and `SortMapByValueDescending` relies on: the order in which `range`
visits the entries of a map (each entry once), and `sort.Slice`, which permutes the slice so
that no element is less than an element before it and may put equal elements in any order. -/
structure GoRuntime where
  rangeMap : GoMap → List (String × Int)
  rangeMap_perm : ∀ m, (rangeMap m).Perm m
  sortSlice : (Pair → Pair → Bool) → List Pair → List Pair
  sortSlice_perm : ∀ less l, (sortSlice less l).Perm l
  sortSlice_sorted : ∀ less l, StrictWeakOrder less →
    (sortSlice less l).Pairwise fun a b => less b a = false

/-- The function `SortMapByValueDescending`. -/
def SortMapByValueDescending (rt : GoRuntime) (m : GoMap) : List Pair :=
  let pl := (rt.rangeMap m).map fun kv => ({ Key := kv.1, Value := kv.2 } : Pair)
  rt.sortSlice (fun a b => decide (a.Value > b.Value)) pl

/-- A runtime for examples: `range` visits the entries in the order of the association list
and `sort.Slice` is insertion sort. -/
def insertionRuntime : GoRuntime where
  rangeMap := fun m => m
  rangeMap_perm := fun m => List.Perm.refl m
  sortSlice := fun less l => l.insertionSort fun a b => less b a = false
  sortSlice_perm := fun less l => List.perm_insertionSort _ l
  sortSlice_sorted := fun less l h =>
    have total : IsTotal Pair (fun a b => less b a = false) :=
      ⟨fun a b => by
        cases hab : less b a
        · exact Or.inl rfl
        · right
          cases hba : less a b
          · rfl
          · have := h.trans a b a hba hab
            rw [h.irrefl a] at this
            cases this⟩
    have trans : IsTrans Pair (fun a b => less b a = false) :=
      ⟨fun a b c hab hbc => h.trans_not c b a hbc hab⟩
    List.sorted_insertionSort _ l

/-! ## Lemmas -/

theorem incr_none (h : Heap) (k : String) (d : Int) : Heap.incr h none k d = none := rfl

theorem incr_some (h : Heap) (a : Nat) (k : String) (d : Int) :
    Heap.incr h (some a) k d =
      some (h.set a (GoMap.set (h.getD a []) k (GoMap.get (h.getD a []) k + d))) := rfl

theorem incr_length {h h' : Heap} {r : MapRef} {k : String} {d : Int}
    (e : Heap.incr h r k d = some h') : h'.length = h.length := by
  cases r with
  | none => simp [incr_none] at e
  | some a =>
    rw [incr_some, Option.some.injEq] at e
    subst e
    simp

theorem killHandleEvent_eq (qp : QuakeLogParser) (line : String) :
    killEventHandler.HandleEvent qp line =
      if (FindStringSubmatch killRe line).length > 4 then
        (Heap.incr qp.heap qp.currentMatch.PlayerScores
          (scoredPlayer ((FindStringSubmatch killRe line).getD 2 "")
            ((FindStringSubmatch killRe line).getD 3 ""))
          (scoredDelta ((FindStringSubmatch killRe line).getD 2 "")
            ((FindStringSubmatch killRe line).getD 3 ""))).bind fun h1 =>
        (Heap.incr h1 qp.currentMatch.CauseOfDeath
          ((FindStringSubmatch killRe line).getD 4 "") 1).bind fun h2 =>
        some { qp with
          heap := h2
          currentMatch :=
            { qp.currentMatch with TotalKills := qp.currentMatch.TotalKills + 1 } }
      else some qp := by
  unfold killEventHandler.HandleEvent scoredPlayer scoredDelta
  dsimp only
  generalize FindStringSubmatch killRe line = ms
  generalize ms.getD 2 "" = killer
  generalize ms.getD 3 "" = victim
  generalize ms.getD 4 "" = cause
  by_cases hlen : ms.length > 4
  · rw [if_pos hlen, if_pos hlen]
    by_cases hk : killer ≠ WORLD_ENTITY ∧ killer ≠ victim
    · rw [if_pos hk, if_pos hk, if_pos hk]
      rcases Heap.incr qp.heap qp.currentMatch.PlayerScores killer 1 with _ | h1
      · rfl
      · rcases hh2 : Heap.incr h1 qp.currentMatch.CauseOfDeath cause 1 with _ | h2 <;>
          simp [hh2]
    · have hk' : killer = WORLD_ENTITY ∨ killer = victim := by
        by_contra hc
        exact hk ⟨fun h => hc (Or.inl h), fun h => hc (Or.inr h)⟩
      rw [if_neg hk, if_pos hk', if_neg hk, if_neg hk]
      rcases Heap.incr qp.heap qp.currentMatch.PlayerScores victim (-1) with _ | h1
      · rfl
      · rcases hh2 : Heap.incr h1 qp.currentMatch.CauseOfDeath cause 1 with _ | h2 <;>
          simp [hh2]
  · rw [if_neg hlen, if_neg hlen]

theorem refsInOrder_snoc {ms : List QuakeMatch} {m : QuakeMatch} (h : RefsInOrder ms)
    (hp : m.PlayerScores = some (2 * ms.length))
    (hc : m.CauseOfDeath = some (2 * ms.length + 1)) : RefsInOrder (ms ++ [m]) := by
  intro j m' hj
  rcases Nat.lt_or_ge j ms.length with hlt | hge
  · rw [List.getElem?_append_left hlt] at hj
    exact h j m' hj
  · rw [List.getElem?_append_right hge] at hj
    rcases Nat.eq_zero_or_pos (j - ms.length) with h0 | hpos
    · have hj' : j = ms.length := by omega
      rw [h0] at hj
      simp only [List.getElem?_cons_zero, Option.some.injEq] at hj
      subst hj hj'
      exact ⟨hp, hc⟩
    · obtain ⟨n, hn⟩ := Nat.exists_eq_succ_of_ne_zero (Nat.pos_iff_ne_zero.mp hpos)
      rw [hn] at hj
      simp at hj

theorem inv_fresh : Inv NewQuakeLogParser := by
  constructor <;> simp [NewQuakeLogParser, QuakeLogParser.opened, RefsInOrder]

theorem inv_initGame {qp qp' : QuakeLogParser} (line : String) (h : Inv qp)
    (e : initGameEventHandler.HandleEvent qp line = some qp') : Inv qp' := by
  simp only [initGameEventHandler.HandleEvent, Option.some.injEq] at e
  subst e
  obtain ⟨h1, h2, h3, h4⟩ := h
  cases hr : qp.gameRunning
  · simp only [QuakeLogParser.opened, hr] at h1 h3 h4 ⊢
    constructor
    · simp [QuakeLogParser.opened, hr, h1]; omega
    · simpa [hr] using h2
    · simp [QuakeLogParser.opened]
    · intro _
      simp [QuakeLogParser.opened, hr, h1]
  · simp only [QuakeLogParser.opened, hr] at h1 h3 h4 ⊢
    have h5 := h4 (by simp)
    simp only [if_true, Nat.add_sub_cancel] at h5
    constructor
    · simp [QuakeLogParser.opened, hr, h1]; omega
    · simp only [if_true]
      exact refsInOrder_snoc h2 h5.1 h5.2
    · simp [QuakeLogParser.opened]
    · intro _
      simp [QuakeLogParser.opened, hr, h1]

theorem inv_shutdownGame {qp qp' : QuakeLogParser} (line : String) (h : Inv qp)
    (e : shutdownGameEventHandler.HandleEvent qp line = some qp') : Inv qp' := by
  unfold shutdownGameEventHandler.HandleEvent at e
  obtain ⟨h1, h2, h3, h4⟩ := h
  cases hr : qp.gameRunning
  · simp only [hr, Bool.false_eq_true, if_false, Option.some.injEq] at e
    subst e
    exact ⟨h1, h2, h3, h4⟩
  · simp only [hr, if_true, Option.some.injEq] at e
    subst e
    simp only [QuakeLogParser.opened, hr] at h1 h3 h4 ⊢
    have h5 := h4 (by simp)
    simp only [if_true, Nat.add_sub_cancel] at h5
    constructor
    · simpa [QuakeLogParser.opened] using h1
    · exact refsInOrder_snoc h2 h5.1 h5.2
    · simp [QuakeLogParser.opened]
    · intro _
      simpa [QuakeLogParser.opened] using h5

theorem inv_endOfInput {qp : QuakeLogParser} (h : Inv qp) : Inv (endOfInput qp) :=
  inv_shutdownGame "" h (by simp [shutdownGameEventHandler.HandleEvent, endOfInput]; split <;> rfl)

theorem sameShape_refl (qp : QuakeLogParser) : SameShape qp qp := ⟨rfl, rfl, rfl, rfl, rfl⟩

theorem inv_of_sameShape {qp qp' : QuakeLogParser} (h : Inv qp) (f : SameShape qp qp') :
    Inv qp' := by
  obtain ⟨f1, f2, f3, f4, f5⟩ := f
  obtain ⟨h1, h2, h3, h4⟩ := h
  have ho : qp'.opened = qp.opened := by simp [QuakeLogParser.opened, f1, f2]
  exact ⟨by rw [f5, ho, h1], by rw [f2]; exact h2, by rw [ho, f3, f4]; exact h3,
    by rw [ho, f3, f4]; exact h4⟩

theorem assign_length {h h' : Heap} {r : MapRef} {k : String} {v : Int}
    (e : Heap.assign h r k v = some h') : h'.length = h.length := by
  cases r with
  | none => simp [Heap.assign] at e
  | some a =>
    simp only [Heap.assign, Option.some.injEq] at e
    subst e
    simp

theorem kill_some {qp qp' : QuakeLogParser} {line : String}
    (e : killEventHandler.HandleEvent qp line = some qp') :
    (¬ (FindStringSubmatch killRe line).length > 4 ∧ qp' = qp) ∨
    ((FindStringSubmatch killRe line).length > 4 ∧ ∃ h1 h2,
      Heap.incr qp.heap qp.currentMatch.PlayerScores
        (scoredPlayer ((FindStringSubmatch killRe line).getD 2 "")
          ((FindStringSubmatch killRe line).getD 3 ""))
        (scoredDelta ((FindStringSubmatch killRe line).getD 2 "")
          ((FindStringSubmatch killRe line).getD 3 "")) = some h1 ∧
      Heap.incr h1 qp.currentMatch.CauseOfDeath
        ((FindStringSubmatch killRe line).getD 4 "") 1 = some h2 ∧
      qp' = { qp with
        heap := h2
        currentMatch :=
          { qp.currentMatch with TotalKills := qp.currentMatch.TotalKills + 1 } }) := by
  rw [killHandleEvent_eq] at e
  split at e
  · rename_i hlen
    obtain ⟨h1, hh1, e⟩ := Option.bind_eq_some.mp e
    obtain ⟨h2, hh2, e⟩ := Option.bind_eq_some.mp e
    exact Or.inr ⟨hlen, h1, h2, hh1, hh2, (Option.some.inj e).symm⟩
  · rename_i hlen
    exact Or.inl ⟨hlen, (Option.some.inj e).symm⟩

theorem kill_sameShape {qp qp' : QuakeLogParser} {line : String}
    (e : killEventHandler.HandleEvent qp line = some qp') : SameShape qp qp' := by
  rcases kill_some e with ⟨_, rfl⟩ | ⟨_, h1, h2, hh1, hh2, rfl⟩
  · exact sameShape_refl _
  · exact ⟨rfl, rfl, rfl, rfl, by simp [incr_length hh2, incr_length hh1]⟩

theorem client_sameShape {qp qp' : QuakeLogParser} {line : String}
    (e : clientUserinfoChangedEventHandler.HandleEvent qp line = some qp') : SameShape qp qp' := by
  unfold clientUserinfoChangedEventHandler.HandleEvent at e
  dsimp only at e
  split at e
  · split at e
    · simp only [Option.some.injEq] at e
      subst e
      exact sameShape_refl _
    · split at e
      · simp at e
      · rename_i h hh
        simp only [Option.some.injEq] at e
        subst e
        exact ⟨rfl, rfl, rfl, rfl, assign_length hh⟩
  · simp only [Option.some.injEq] at e
    subst e
    exact sameShape_refl _

theorem inv_handleEvent {qp qp' : QuakeLogParser} {line : String} (hd : QuakeEventHandler)
    (h : Inv qp) (e : HandleEvent hd qp line = some qp') : Inv qp' := by
  cases hd with
  | initGameEventHandler => exact inv_initGame line h e
  | shutdownGameEventHandler => exact inv_shutdownGame line h e
  | killEventHandler => exact inv_of_sameShape h (kill_sameShape e)
  | clientUserinfoChangedEventHandler => exact inv_of_sameShape h (client_sameShape e)

theorem inv_processLine {qp qp' : QuakeLogParser} {line : String}
    (h : Inv qp) (e : processLine qp line = some qp') : Inv qp' := by
  unfold processLine at e
  split at e
  · simp only [Option.some.injEq] at e
    subst e
    exact h
  · exact inv_handleEvent _ h e

theorem inv_of_reachable {qp : QuakeLogParser} (h : Reachable qp) : Inv qp := by
  induction h with
  | fresh => exact inv_fresh
  | line l _ e ih => exact inv_processLine ih e
  | finish _ ih => exact inv_endOfInput ih

theorem inv_processLines {lines : List String} {qp qp' : QuakeLogParser}
    (h : Inv qp) (e : processLines qp lines = some qp') : Inv qp' := by
  induction lines generalizing qp with
  | nil =>
    simp only [processLines, Option.some.injEq] at e
    subst e
    exact h
  | cons l rest ih =>
    simp only [processLines] at e
    split at e
    · simp at e
    · rename_i q hq
      exact ih (inv_processLine h hq) e

theorem reachable_processLines {lines : List String} {qp qp' : QuakeLogParser}
    (h : Reachable qp) (e : processLines qp lines = some qp') : Reachable qp' := by
  induction lines generalizing qp with
  | nil =>
    simp only [processLines, Option.some.injEq] at e
    subst e
    exact h
  | cons l rest ih =>
    simp only [processLines] at e
    split at e
    · simp at e
    · rename_i q hq
      exact ih (Reachable.line l h hq) e

theorem lookup_set_self (m : GoMap) (k : String) (v : Int) :
    GoMap.lookup (GoMap.set m k v) k = some v := by
  induction m with
  | nil => simp [GoMap.set, GoMap.lookup]
  | cons x m ih =>
    obtain ⟨k', v'⟩ := x
    by_cases hk : k' = k
    · simp [GoMap.set, GoMap.lookup, hk]
    · simp [GoMap.set, GoMap.lookup, hk, ih]

theorem lookup_set_other (m : GoMap) (k p : String) (v : Int) (hp : p ≠ k) :
    GoMap.lookup (GoMap.set m k v) p = GoMap.lookup m p := by
  induction m with
  | nil => simp [GoMap.set, GoMap.lookup, Ne.symm hp]
  | cons x m ih =>
    obtain ⟨k', v'⟩ := x
    by_cases hk : k' = k
    · subst hk
      simp [GoMap.set, GoMap.lookup, Ne.symm hp]
    · by_cases hkp : k' = p
      · subst hkp
        simp [GoMap.set, GoMap.lookup, hk]
      · simp [GoMap.set, GoMap.lookup, hk, hkp, ih]

theorem read_set_same (h : Heap) (a : Nat) (m : GoMap) (ha : a < h.length) :
    Heap.read (h.set a m) (some a) = m := by
  simp [Heap.read, List.getD_eq_getElem?_getD, ha]

theorem read_set_other (h : Heap) (a b : Nat) (m : GoMap) (hab : a ≠ b) :
    Heap.read (h.set a m) (some b) = Heap.read h (some b) := by
  simp [Heap.read, List.getD_eq_getElem?_getD, List.getElem?_set_ne hab]

theorem read_append (h t : Heap) (a : Nat) (ha : a < h.length) :
    Heap.read (h ++ t) (some a) = Heap.read h (some a) := by
  simp [Heap.read, List.getD_eq_getElem?_getD, List.getElem?_append_left ha]

theorem read_append_new (h t : Heap) (i : Nat) :
    Heap.read (h ++ t) (some (h.length + i)) = t.getD i [] := by
  simp [Heap.read, List.getD_eq_getElem?_getD, List.getElem?_append_right]

theorem inv_current_refs {qp : QuakeLogParser} (h : Inv qp) (ho : 0 < qp.opened) :
    qp.currentMatch.PlayerScores = some (2 * (qp.opened - 1)) ∧
      qp.currentMatch.CauseOfDeath = some (2 * (qp.opened - 1) + 1) ∧
      2 * (qp.opened - 1) + 1 < qp.heap.length := by
  obtain ⟨h1, _, _, h4⟩ := h
  exact ⟨(h4 ho).1, (h4 ho).2, by omega⟩

theorem opened_of_running {qp : QuakeLogParser} (hrun : qp.gameRunning = true) :
    qp.opened = qp.allMatches.length + 1 := by
  simp [QuakeLogParser.opened, hrun]

theorem opened_of_idle {qp : QuakeLogParser} (hrun : qp.gameRunning = false) :
    qp.opened = qp.allMatches.length := by
  simp [QuakeLogParser.opened, hrun]

/-- Two heaps that agree below address `2 * ms.length` give the records `ms` the same contents. -/
theorem map_data_congr {ms : List QuakeMatch} (hm : RefsInOrder ms) {h h' : Heap}
    (e : ∀ a, a < 2 * ms.length → Heap.read h' (some a) = Heap.read h (some a)) :
    ms.map (QuakeMatch.data h') = ms.map (QuakeMatch.data h) := by
  apply List.ext_getElem?
  intro j
  simp only [List.getElem?_map]
  rcases hj : ms[j]? with _ | m
  · rfl
  · have hlt : j < ms.length := by
      by_contra hge
      rw [List.getElem?_eq_none (by omega)] at hj
      cases hj
    obtain ⟨hp, hc⟩ := hm j m hj
    simp only [Option.map_some', QuakeMatch.data, hp, hc, Option.some.injEq]
    rw [e (2 * j) (by omega), e (2 * j + 1) (by omega)]

theorem read_incr_same {h h' : Heap} {a : Nat} {k : String} {d : Int} (ha : a < h.length)
    (e : Heap.incr h (some a) k d = some h') :
    Heap.read h' (some a) =
      GoMap.set (Heap.read h (some a)) k (GoMap.get (Heap.read h (some a)) k + d) := by
  rw [incr_some, Option.some.injEq] at e
  subst e
  rw [read_set_same h a _ ha]
  rfl

theorem read_incr_other {h h' : Heap} {a b : Nat} {k : String} {d : Int} (hab : a ≠ b)
    (e : Heap.incr h (some a) k d = some h') :
    Heap.read h' (some b) = Heap.read h (some b) := by
  rw [incr_some, Option.some.injEq] at e
  subst e
  exact read_set_other h a b _ hab

/-- The kill handler on a parser with a match opened and a line its pattern matches. -/
theorem kill_opened_general {qp : QuakeLogParser} {line : String}
    (h : Inv qp) (ho : 0 < qp.opened) (hlen : (FindStringSubmatch killRe line).length > 4) :
    ∃ qp', killEventHandler.HandleEvent qp line = some qp' ∧
      qp'.gameRunning = qp.gameRunning ∧ qp'.allMatches = qp.allMatches ∧
      qp'.currentMatch = { qp.currentMatch with TotalKills := qp.currentMatch.TotalKills + 1 } ∧
      qp'.heap.length = qp.heap.length ∧
      qp'.current.PlayerScores =
        GoMap.set qp.current.PlayerScores
          (scoredPlayer ((FindStringSubmatch killRe line).getD 2 "")
            ((FindStringSubmatch killRe line).getD 3 ""))
          (GoMap.get qp.current.PlayerScores
            (scoredPlayer ((FindStringSubmatch killRe line).getD 2 "")
              ((FindStringSubmatch killRe line).getD 3 "")) +
            scoredDelta ((FindStringSubmatch killRe line).getD 2 "")
              ((FindStringSubmatch killRe line).getD 3 "")) ∧
      qp'.current.CauseOfDeath =
        GoMap.set qp.current.CauseOfDeath ((FindStringSubmatch killRe line).getD 4 "")
          (GoMap.get qp.current.CauseOfDeath ((FindStringSubmatch killRe line).getD 4 "") + 1) ∧
      ∀ a, a < 2 * (qp.opened - 1) →
        Heap.read qp'.heap (some a) = Heap.read qp.heap (some a) := by
  obtain ⟨hp, hc, hlt⟩ := inv_current_refs h ho
  rw [killHandleEvent_eq, if_pos hlen, hp, hc]
  generalize scoredPlayer ((FindStringSubmatch killRe line).getD 2 "")
    ((FindStringSubmatch killRe line).getD 3 "") = player
  generalize scoredDelta ((FindStringSubmatch killRe line).getD 2 "")
    ((FindStringSubmatch killRe line).getD 3 "") = delta
  generalize (FindStringSubmatch killRe line).getD 4 "" = cause
  rcases hh1 : Heap.incr qp.heap (some (2 * (qp.opened - 1))) player delta with _ | h1
  · simp [incr_some] at hh1
  rw [Option.some_bind]
  rcases hh2 : Heap.incr h1 (some (2 * (qp.opened - 1) + 1)) cause 1 with _ | h2
  · simp [incr_some] at hh2
  rw [Option.some_bind]
  have l1 := incr_length hh1
  have l2 := incr_length hh2
  refine ⟨_, rfl, rfl, rfl, ?_, ?_, ?_, ?_, ?_⟩
  · simp [hp, hc]
  · simp only [l2, l1]
  · simp only [QuakeLogParser.current, QuakeMatch.data, hp]
    rw [read_incr_other (by omega) hh2, read_incr_same (by omega) hh1]
  · simp only [QuakeLogParser.current, QuakeMatch.data, hc]
    rw [read_incr_same (by omega) hh2, read_incr_other (by omega) hh1]
  · intro a ha
    show Heap.read h2 (some a) = _
    rw [read_incr_other (by omega) hh2, read_incr_other (by omega) hh1]

/-- The same, with the parts of the match named. -/
theorem kill_opened {qp : QuakeLogParser} {line whole ts killer victim cause : String}
    (h : Inv qp) (ho : 0 < qp.opened)
    (hm : FindStringSubmatch killRe line = [whole, ts, killer, victim, cause]) :
    ∃ qp', killEventHandler.HandleEvent qp line = some qp' ∧
      qp'.gameRunning = qp.gameRunning ∧ qp'.allMatches = qp.allMatches ∧
      qp'.currentMatch = { qp.currentMatch with TotalKills := qp.currentMatch.TotalKills + 1 } ∧
      qp'.heap.length = qp.heap.length ∧
      qp'.current.PlayerScores =
        GoMap.set qp.current.PlayerScores (scoredPlayer killer victim)
          (GoMap.get qp.current.PlayerScores (scoredPlayer killer victim) +
            scoredDelta killer victim) ∧
      qp'.current.CauseOfDeath =
        GoMap.set qp.current.CauseOfDeath cause (GoMap.get qp.current.CauseOfDeath cause + 1) ∧
      ∀ a, a < 2 * (qp.opened - 1) →
        Heap.read qp'.heap (some a) = Heap.read qp.heap (some a) := by
  have hlen : (FindStringSubmatch killRe line).length > 4 := by rw [hm]; simp
  have := kill_opened_general h ho hlen
  rw [hm] at this
  exact this

theorem reachable_runningExample : Reachable runningExample :=
  Reachable.line "0:00 InitGame:" Reachable.fresh (by decide)

set_option maxRecDepth 100000 in
theorem reachable_scoredExample : Reachable scoredExample :=
  reachable_processLines Reachable.fresh
    (by decide : processLines NewQuakeLogParser ["11:47 InitGame:",
      "11:47 Kill: 4 2 7: Zeh killed Dono da Bola by MOD_ROCKET_SPLASH"] = some scoredExample)

theorem processLines_append (qp : QuakeLogParser) (a b : List String) :
    processLines qp (a ++ b) = (processLines qp a).bind fun q => processLines q b := by
  induction a generalizing qp with
  | nil => rfl
  | cons l rest ih =>
    simp only [List.cons_append, processLines]
    rcases processLine qp l with _ | q
    · rfl
    · exact ih q

theorem endOfInput_idle {qp : QuakeLogParser} (h : qp.gameRunning = false) :
    endOfInput qp = qp := by
  simp [endOfInput, h]

theorem endOfInput_shutdown (qp qp' : QuakeLogParser) (line : String)
    (e : shutdownGameEventHandler.HandleEvent qp line = some qp') :
    endOfInput qp' = endOfInput qp := by
  unfold shutdownGameEventHandler.HandleEvent at e
  cases hr : qp.gameRunning
  · simp only [hr, Bool.false_eq_true, if_false, Option.some.injEq] at e
    rw [e]
  · simp only [hr, if_true, Option.some.injEq] at e
    subst e
    simp [endOfInput, hr]

theorem updateLast_nil (f : MatchData → MatchData) : updateLast f [] = none := rfl

theorem updateLast_snoc (f : MatchData → MatchData) (front : List MatchData) (r : MatchData) :
    updateLast f (front ++ [r]) = some (front ++ [f r]) := by
  induction front with
  | nil => rfl
  | cons x front ih =>
    cases front with
    | nil => rfl
    | cons y front =>
      simp only [List.cons_append] at ih ⊢
      simp only [updateLast, ih, Option.map_some']

theorem refsInOrder_front {front : List QuakeMatch} {m : QuakeMatch}
    (h : RefsInOrder (front ++ [m])) :
    RefsInOrder front ∧ m.PlayerScores = some (2 * front.length) ∧
      m.CauseOfDeath = some (2 * front.length + 1) := by
  constructor
  · intro j x hj
    have hlt : j < front.length := by
      by_contra hge
      rw [List.getElem?_eq_none (by omega)] at hj
      cases hj
    exact h j x (by rw [List.getElem?_append_left hlt]; exact hj)
  · exact h front.length m (by simp)

/-- The records a parser would return now: the earlier ones, then the match opened last. -/
theorem closing_snoc {qp : QuakeLogParser} (h : Inv qp) (ho : 0 < qp.opened) :
    ∃ front lastm, (endOfInput qp).allMatches = front ++ [lastm] ∧
      RefsInOrder front ∧ front.length = qp.opened - 1 ∧
      lastm.PlayerScores = some (2 * (qp.opened - 1)) ∧
      lastm.CauseOfDeath = some (2 * (qp.opened - 1) + 1) ∧
      (qp.gameRunning = true → front = qp.allMatches ∧ lastm = qp.currentMatch) ∧
      (qp.gameRunning = false → qp.allMatches = front ++ [lastm]) := by
  have hd := (inv_endOfInput h).done
  cases hrun : qp.gameRunning
  · rw [opened_of_idle hrun] at ho ⊢
    have hne : qp.allMatches ≠ [] := List.ne_nil_of_length_pos ho
    have hsplit := List.dropLast_append_getLast hne
    rw [endOfInput_idle hrun] at hd ⊢
    rw [← hsplit] at hd
    obtain ⟨hf, hp, hc⟩ := refsInOrder_front hd
    have hlen : qp.allMatches.dropLast.length = qp.allMatches.length - 1 := by simp
    refine ⟨qp.allMatches.dropLast, qp.allMatches.getLast hne, hsplit.symm, hf, hlen,
      (by rw [hp, hlen]), (by rw [hc, hlen]), (fun hh => by cases hh), fun _ => hsplit.symm⟩
  · rw [opened_of_running hrun]
    have he : (endOfInput qp).allMatches = qp.allMatches ++ [qp.currentMatch] := by
      simp [endOfInput, hrun]
    rw [he] at hd ⊢
    obtain ⟨hf, hp, hc⟩ := refsInOrder_front hd
    exact ⟨qp.allMatches, qp.currentMatch, rfl, hf, (by simp), (by simpa using hp),
      (by simpa using hc), (fun _ => ⟨rfl, rfl⟩), fun hh => by cases hh⟩

theorem endOfInput_heap (qp : QuakeLogParser) : (endOfInput qp).heap = qp.heap := by
  unfold endOfInput
  split <;> rfl

theorem endOfInput_completed_running {qp : QuakeLogParser} (h : qp.gameRunning = true) :
    (endOfInput qp).completed = qp.completed ++ [qp.current] := by
  simp [endOfInput, h, QuakeLogParser.completed, QuakeLogParser.current]

theorem endOfInput_completed_fresh {qp : QuakeLogParser} (ho : qp.opened = 0) :
    (endOfInput qp).completed = [] := by
  unfold QuakeLogParser.opened at ho
  cases hrun : qp.gameRunning
  · rw [endOfInput_idle hrun]
    simp only [hrun, Bool.false_eq_true, if_false, Nat.add_zero] at ho
    simp [QuakeLogParser.completed, List.length_eq_zero.mp ho]
  · simp [hrun] at ho

/-- The `InitGame` handler in a state of the shape `Inv`. -/
theorem initGame_step (qp : QuakeLogParser) (line : String) (hi : Inv qp) :
    ∃ qp', initGameEventHandler.HandleEvent qp line = some qp' ∧
      qp'.gameRunning = true ∧
      qp'.current = { TotalKills := 0, PlayerScores := [], CauseOfDeath := [] } ∧
      qp'.currentMatch.PlayerScores = some qp.heap.length ∧
      qp'.currentMatch.CauseOfDeath = some (qp.heap.length + 1) ∧
      qp'.completed = (endOfInput qp).completed := by
  refine ⟨_, rfl, rfl, ?_, rfl, rfl, ?_⟩
  · have e0 := read_append_new qp.heap [[], []] 0
    have e1 := read_append_new qp.heap [[], []] 1
    rw [Nat.add_zero] at e0
    show ({ TotalKills := 0
            PlayerScores := Heap.read (qp.heap ++ [[], []]) (some qp.heap.length)
            CauseOfDeath := Heap.read (qp.heap ++ [[], []]) (some (qp.heap.length + 1)) } :
      MatchData) = _
    rw [e0, e1]
    rfl
  · have hi2 := inv_endOfInput hi
    have hl := hi2.heap_len
    have ha : (endOfInput qp).allMatches =
        if qp.gameRunning then qp.allMatches ++ [qp.currentMatch] else qp.allMatches := by
      unfold endOfInput
      split <;> rfl
    show (if qp.gameRunning then qp.allMatches ++ [qp.currentMatch] else qp.allMatches).map
      (QuakeMatch.data (qp.heap ++ [[], []])) = (endOfInput qp).allMatches.map
        (QuakeMatch.data (endOfInput qp).heap)
    rw [← ha, endOfInput_heap]
    apply map_data_congr hi2.done
    intro a hlt
    apply read_append
    rw [endOfInput_heap] at hl
    have : (endOfInput qp).opened = (endOfInput qp).allMatches.length := by
      apply opened_of_idle
      unfold endOfInput
      split
      · rfl
      · rename_i hh
        simpa using hh
    omega

/-- The user info handler on a parser with a match opened and a line its pattern matches. -/
theorem client_opened {qp : QuakeLogParser} {line : String}
    (h : Inv qp) (ho : 0 < qp.opened) (hlen : (FindStringSubmatch clientRe line).length > 1) :
    ∃ qp', clientUserinfoChangedEventHandler.HandleEvent qp line = some qp' ∧
      qp'.gameRunning = qp.gameRunning ∧ qp'.allMatches = qp.allMatches ∧
      qp'.currentMatch = qp.currentMatch ∧
      qp'.heap.length = qp.heap.length ∧
      qp'.current = MatchData.join ((FindStringSubmatch clientRe line).getD 1 "") qp.current ∧
      ∀ a, a < 2 * (qp.opened - 1) →
        Heap.read qp'.heap (some a) = Heap.read qp.heap (some a) := by
  obtain ⟨hp, hc, hlt⟩ := inv_current_refs h ho
  unfold clientUserinfoChangedEventHandler.HandleEvent
  dsimp only
  rw [if_pos hlen]
  generalize (FindStringSubmatch clientRe line).getD 1 "" = playerName
  have hcur : qp.current.PlayerScores = Heap.read qp.heap qp.currentMatch.PlayerScores := rfl
  rcases hl : GoMap.lookup (Heap.read qp.heap qp.currentMatch.PlayerScores) playerName with _ | v
  · simp only [hp, Heap.assign]
    refine ⟨_, rfl, rfl, rfl, rfl, by simp, ?_, ?_⟩
    · simp only [QuakeLogParser.current, QuakeMatch.data, MatchData.join, hp, hc]
      rw [hp] at hl
      rw [hl, read_set_same _ _ _ (by omega), read_set_other _ _ _ _ (by omega)]
      rfl
    · intro a ha
      exact read_set_other _ _ _ _ (by omega)
  · refine ⟨qp, rfl, rfl, rfl, rfl, rfl, ?_, fun _ _ => rfl⟩
    simp only [QuakeLogParser.current, QuakeMatch.data, MatchData.join, hl]

/-- The records a parser would return, before and after a step that leaves the shape of the
parser and the maps of the earlier matches as they are. -/
theorem view_after_update {qp qp' : QuakeLogParser} (h : Inv qp) (ho : 0 < qp.opened)
    (hg : qp'.gameRunning = qp.gameRunning) (ha : qp'.allMatches = qp.allMatches)
    (hp : qp'.currentMatch.PlayerScores = qp.currentMatch.PlayerScores)
    (hc : qp'.currentMatch.CauseOfDeath = qp.currentMatch.CauseOfDeath)
    (hfr : ∀ a, a < 2 * (qp.opened - 1) →
      Heap.read qp'.heap (some a) = Heap.read qp.heap (some a)) :
    ∃ front r, (endOfInput qp).completed = front ++ [r] ∧
      (endOfInput qp').completed = front ++
        [{ TotalKills := if qp.gameRunning then qp'.currentMatch.TotalKills else r.TotalKills
           PlayerScores := qp'.current.PlayerScores
           CauseOfDeath := qp'.current.CauseOfDeath }] ∧
      r.PlayerScores = qp.current.PlayerScores ∧ r.CauseOfDeath = qp.current.CauseOfDeath ∧
      (qp.gameRunning = true → r.TotalKills = qp.currentMatch.TotalKills) := by
  obtain ⟨front, lastm, hs, hf, hfl, hlp, hlc, hrun, hidle⟩ := closing_snoc h ho
  obtain ⟨hcp, hcc, _⟩ := inv_current_refs h ho
  have hfront : front.map (QuakeMatch.data qp'.heap) = front.map (QuakeMatch.data qp.heap) :=
    map_data_congr hf (by intro a hlt; exact hfr a (by omega))
  refine ⟨front.map (QuakeMatch.data qp.heap), QuakeMatch.data qp.heap lastm,
    ?_, ?_, ?_, ?_, ?_⟩
  · unfold QuakeLogParser.completed
    rw [hs, endOfInput_heap]
    simp
  · cases hr : qp.gameRunning
    · have hr' : qp'.gameRunning = false := by rw [hg, hr]
      rw [endOfInput_idle hr']
      unfold QuakeLogParser.completed
      rw [ha, hidle hr, List.map_append, hfront]
      simp only [List.map_cons, List.map_nil, Bool.false_eq_true, if_false,
        QuakeLogParser.current, QuakeMatch.data, hp, hc, hcp, hcc, hlp, hlc]
    · have hr' : qp'.gameRunning = true := by rw [hg, hr]
      rw [endOfInput_completed_running hr']
      unfold QuakeLogParser.completed
      rw [ha, ← (hrun hr).1, hfront]
      simp only [if_true, QuakeLogParser.current, QuakeMatch.data]
  · simp only [QuakeLogParser.current, QuakeMatch.data, hlp, hcp]
  · simp only [QuakeLogParser.current, QuakeMatch.data, hlc, hcc]
  · intro hr
    rw [(hrun hr).2]
    rfl

theorem initGame_view (qp : QuakeLogParser) (line : String) (hi : Inv qp) :
    (initGameEventHandler.HandleEvent qp line).map QuakeLogParser.view =
      some (true, qp.view.2 ++ [{ TotalKills := 0, PlayerScores := [], CauseOfDeath := [] }]) := by
  obtain ⟨qp', e, hr, hcur, _, _, hcomp⟩ := initGame_step qp line hi
  rw [e, Option.map_some']
  simp only [QuakeLogParser.view, hr, endOfInput_completed_running hr, hcur, hcomp]

theorem shutdownGame_view (qp : QuakeLogParser) (line : String) :
    (shutdownGameEventHandler.HandleEvent qp line).map QuakeLogParser.view =
      some (false, qp.view.2) := by
  rcases e : shutdownGameEventHandler.HandleEvent qp line with _ | qp'
  · unfold shutdownGameEventHandler.HandleEvent at e
    split at e <;> cases e
  · have he := endOfInput_shutdown qp qp' line e
    have hr : qp'.gameRunning = false := by
      unfold shutdownGameEventHandler.HandleEvent at e
      split at e
      · cases e
        rfl
      · rename_i hh
        cases e
        simpa using hh
    simp only [Option.map_some', QuakeLogParser.view, he, hr]

theorem kill_view (qp : QuakeLogParser) (line : String) (hi : Inv qp) :
    (killEventHandler.HandleEvent qp line).map QuakeLogParser.view =
      if (FindStringSubmatch killRe line).length > 4 then
        (updateLast (MatchData.kill qp.view.1 ((FindStringSubmatch killRe line).getD 2 "")
          ((FindStringSubmatch killRe line).getD 3 "")
          ((FindStringSubmatch killRe line).getD 4 "")) qp.view.2).map fun t => (qp.view.1, t)
      else some qp.view := by
  by_cases hlen : (FindStringSubmatch killRe line).length > 4
  · rw [if_pos hlen]
    rcases Nat.eq_zero_or_pos qp.opened with ho | ho
    · rw [killHandleEvent_eq, if_pos hlen, (hi.cur_nil ho).1, incr_none]
      simp only [QuakeLogParser.view, endOfInput_completed_fresh ho, updateLast_nil]
      rfl
    · obtain ⟨qp', e, hg, ha, hc, _, hps, hcd, hfr⟩ := kill_opened_general hi ho hlen
      have hp1 : qp'.currentMatch.PlayerScores = qp.currentMatch.PlayerScores := by rw [hc]
      have hc1 : qp'.currentMatch.CauseOfDeath = qp.currentMatch.CauseOfDeath := by rw [hc]
      have ht : qp'.currentMatch.TotalKills = qp.currentMatch.TotalKills + 1 := by rw [hc]
      obtain ⟨front, r, e1, e2, hrp, hrc, hrt⟩ := view_after_update hi ho hg ha hp1 hc1 hfr
      rw [e, Option.map_some']
      simp only [QuakeLogParser.view, e1, e2, updateLast_snoc, Option.map_some', hg,
        MatchData.kill, hps, hcd, hrp, hrc, ht]
      cases hr : qp.gameRunning
      · simp
      · simp [hrt hr]
  · rw [if_neg hlen, killHandleEvent_eq, if_neg hlen]
    rfl

theorem client_view (qp : QuakeLogParser) (line : String) (hi : Inv qp) :
    (clientUserinfoChangedEventHandler.HandleEvent qp line).map QuakeLogParser.view =
      if (FindStringSubmatch clientRe line).length > 1 then
        (updateLast (MatchData.join ((FindStringSubmatch clientRe line).getD 1 ""))
          qp.view.2).map fun t => (qp.view.1, t)
      else some qp.view := by
  by_cases hlen : (FindStringSubmatch clientRe line).length > 1
  · rw [if_pos hlen]
    rcases Nat.eq_zero_or_pos qp.opened with ho | ho
    · have hn : clientUserinfoChangedEventHandler.HandleEvent qp line = none := by
        unfold clientUserinfoChangedEventHandler.HandleEvent
        dsimp only
        rw [if_pos hlen, (hi.cur_nil ho).1]
        rfl
      rw [hn]
      simp only [QuakeLogParser.view, endOfInput_completed_fresh ho, updateLast_nil]
      rfl
    · obtain ⟨qp', e, hg, ha, hc, _, hcur, hfr⟩ := client_opened hi ho hlen
      have hp1 : qp'.currentMatch.PlayerScores = qp.currentMatch.PlayerScores := by rw [hc]
      have hc1 : qp'.currentMatch.CauseOfDeath = qp.currentMatch.CauseOfDeath := by rw [hc]
      obtain ⟨front, r, e1, e2, hrp, hrc, hrt⟩ := view_after_update hi ho hg ha hp1 hc1 hfr
      rw [e, Option.map_some']
      simp only [QuakeLogParser.view, e1, e2, updateLast_snoc, Option.map_some', hg, hcur,
        MatchData.join, hrp, hrc, hc]
      cases hr : qp.gameRunning
      · simp
      · simp [hrt hr]
  · rw [if_neg hlen]
    unfold clientUserinfoChangedEventHandler.HandleEvent
    dsimp only
    rw [if_neg hlen]
    rfl

/-- Refinement: on the observable part of a reachable parser, one iteration of the loop of
`ParseLogContent` is `viewStep`; the one panics exactly when the other has no result. -/
theorem processLine_view (qp : QuakeLogParser) (line : String) (hi : Inv qp) :
    (processLine qp line).map QuakeLogParser.view = viewStep qp.view line := by
  unfold processLine viewStep
  rcases classify line with _ | hd
  · rfl
  · cases hd with
    | initGameEventHandler => exact initGame_view qp line hi
    | shutdownGameEventHandler => exact shutdownGame_view qp line
    | killEventHandler => exact kill_view qp line hi
    | clientUserinfoChangedEventHandler => exact client_view qp line hi

theorem processLines_view (lines : List String) (qp : QuakeLogParser) (hi : Inv qp) :
    (processLines qp lines).map QuakeLogParser.view = viewSteps qp.view lines := by
  induction lines generalizing qp with
  | nil => rfl
  | cons l rest ih =>
    have h1 := processLine_view qp l hi
    simp only [processLines, viewSteps]
    rcases e : processLine qp l with _ | q
    · rw [e] at h1
      rw [← h1]
      rfl
    · rw [e] at h1
      rw [← h1]
      exact ih q (inv_processLine hi e)

theorem parseFresh_eq_viewSteps (lines : List String) :
    parseFresh lines = (viewSteps (false, []) lines).map Prod.snd := by
  have h := processLines_view lines NewQuakeLogParser inv_fresh
  have hv : NewQuakeLogParser.view = (false, []) := rfl
  rw [hv] at h
  rw [← h]
  unfold parseFresh ParseLogContent
  rcases processLines NewQuakeLogParser lines with _ | q
  · rfl
  · rfl

theorem updateLast_append (f : MatchData → MatchData) (front recs : List MatchData)
    (h : recs ≠ []) :
    updateLast f (front ++ recs) = (updateLast f recs).map fun t => front ++ t := by
  rw [← List.dropLast_append_getLast h, ← List.append_assoc, updateLast_snoc, updateLast_snoc]
  simp

theorem updateLast_length {f : MatchData → MatchData} {recs t : List MatchData}
    (e : updateLast f recs = some t) : t.length = recs.length := by
  rcases List.eq_nil_or_concat recs with h | ⟨front, r, h⟩
  · subst h
    cases e
  · subst h
    rw [List.concat_eq_append, updateLast_snoc] at e
    cases e
    simp

theorem viewStep_prepend (b : Bool) (front recs : List MatchData) (line : String)
    (h : recs ≠ []) :
    viewStep (b, front ++ recs) line =
      (viewStep (b, recs) line).map fun s => (s.1, front ++ s.2) := by
  unfold viewStep
  rcases classify line with _ | hd
  · rfl
  · cases hd with
    | initGameEventHandler => simp
    | shutdownGameEventHandler => rfl
    | killEventHandler =>
      dsimp only
      split
      · rw [updateLast_append _ _ _ h]
        simp [Option.map_map, Function.comp_def]
      · rfl
    | clientUserinfoChangedEventHandler =>
      dsimp only
      split
      · rw [updateLast_append _ _ _ h]
        simp [Option.map_map, Function.comp_def]
      · rfl

theorem viewStep_length {s s' : Bool × List MatchData} {line : String}
    (e : viewStep s line = some s') :
    s'.2.length = s.2.length + (if isInitGame line then 1 else 0) := by
  unfold viewStep at e
  unfold isInitGame
  rcases hcl : classify line with _ | hd
  · rw [hcl] at e
    cases e
    simp
  · rw [hcl] at e
    cases hd with
    | initGameEventHandler =>
      cases e
      simp
    | shutdownGameEventHandler =>
      cases e
      simp
    | killEventHandler =>
      dsimp only at e
      split at e
      · obtain ⟨t, ht, e⟩ := Option.map_eq_some'.mp e
        subst e
        simp [updateLast_length ht]
      · cases e
        simp
    | clientUserinfoChangedEventHandler =>
      dsimp only at e
      split at e
      · obtain ⟨t, ht, e⟩ := Option.map_eq_some'.mp e
        subst e
        simp [updateLast_length ht]
      · cases e
        simp

theorem viewSteps_append (s : Bool × List MatchData) (a b : List String) :
    viewSteps s (a ++ b) = (viewSteps s a).bind fun s' => viewSteps s' b := by
  induction a generalizing s with
  | nil => rfl
  | cons l rest ih =>
    simp only [List.cons_append, viewSteps]
    rcases viewStep s l with _ | q
    · rfl
    · exact ih q

theorem viewSteps_length {lines : List String} {s s' : Bool × List MatchData}
    (e : viewSteps s lines = some s') :
    s'.2.length = s.2.length + lines.countP isInitGame := by
  induction lines generalizing s with
  | nil =>
    cases e
    simp
  | cons l rest ih =>
    simp only [viewSteps] at e
    rcases h1 : viewStep s l with _ | q
    · rw [h1] at e
      cases e
    · rw [h1] at e
      rw [ih e, viewStep_length h1, List.countP_cons]
      omega

theorem viewSteps_prepend (lines : List String) (b : Bool) (front recs : List MatchData)
    (h : recs ≠ []) :
    viewSteps (b, front ++ recs) lines =
      (viewSteps (b, recs) lines).map fun s => (s.1, front ++ s.2) := by
  induction lines generalizing b recs with
  | nil => rfl
  | cons l rest ih =>
    simp only [viewSteps]
    rw [viewStep_prepend b front recs l h]
    rcases h1 : viewStep (b, recs) l with _ | q
    · rfl
    · have hq : q.2 ≠ [] := by
        have := viewStep_length h1
        intro hnil
        rw [hnil] at this
        have hpos : 0 < recs.length := List.length_pos.mpr h
        simp only [List.length_nil] at this
        omega
      exact ih q.1 q.2 hq

theorem viewStep_initGame {line : String} (h : isInitGame line = true)
    (s : Bool × List MatchData) :
    viewStep s line =
      some (true, s.2 ++ [{ TotalKills := 0, PlayerScores := [], CauseOfDeath := [] }]) := by
  have hc : classify line = some .initGameEventHandler := by simpa [isInitGame] using h
  simp only [viewStep, hc]

/-- The record of a match is what its own lines make of it: the lines up to the next
`InitGame` line. -/
theorem viewSteps_first (rest : List String) (b : Bool) (x : MatchData) (res : List MatchData)
    (h : (viewSteps (b, [x]) rest).map Prod.snd = some res) :
    ∃ y tl, res = y :: tl ∧
      (viewSteps (b, [x]) (rest.takeWhile fun l => !isInitGame l)).map Prod.snd = some [y] := by
  induction rest generalizing b x with
  | nil =>
    simp only [viewSteps, Option.map_some', Option.some.injEq] at h
    exact ⟨x, [], h.symm, rfl⟩
  | cons l rest ih =>
    cases hinit : isInitGame l
    · simp only [List.takeWhile_cons, hinit, Bool.not_false, if_true, viewSteps] at h ⊢
      rcases h1 : viewStep (b, [x]) l with _ | q
      · rw [h1] at h
        cases h
      · rw [h1] at h
        have hl := viewStep_length h1
        simp only [hinit, List.length_singleton, Bool.false_eq_true, if_false, Nat.add_zero]
          at hl
        obtain ⟨x2, hx2⟩ := List.length_eq_one.mp hl
        obtain ⟨b2, r2⟩ := q
        simp only at hx2
        subst hx2
        exact ih b2 x2 h
    · simp only [List.takeWhile_cons, hinit, Bool.not_true, Bool.false_eq_true, if_false,
        viewSteps, Option.map_some']
      simp only [viewSteps, viewStep_initGame hinit] at h
      have hp := viewSteps_prepend rest true [x]
        [{ TotalKills := 0, PlayerScores := [], CauseOfDeath := [] }] (by simp)
      rw [hp, Option.map_map] at h
      obtain ⟨q, _, hq⟩ := Option.map_eq_some'.mp h
      exact ⟨x, q.2, by simpa using hq.symm, rfl⟩

theorem viewSteps_matchLines (lines : List String) (s : Bool × List MatchData)
    (res : List MatchData) (h : (viewSteps s lines).map Prod.snd = some res) :
    (matchLines lines).map parseFresh = (res.drop s.2.length).map fun r => some [r] := by
  induction lines generalizing s with
  | nil =>
    simp only [viewSteps, Option.map_some', Option.some.injEq] at h
    subst h
    simp [matchLines]
  | cons l rest ih =>
    simp only [viewSteps] at h
    rcases h1 : viewStep s l with _ | q
    · rw [h1] at h
      cases h
    · rw [h1] at h
      have hi := ih q h
      have hl := viewStep_length h1
      cases hinit : isInitGame l
      · simp only [hinit, Bool.false_eq_true, if_false, Nat.add_zero] at hl
        simp only [matchLines, hinit, Bool.false_eq_true, if_false]
        rw [hi, hl]
      · rw [viewStep_initGame hinit, Option.some.injEq] at h1
        subst h1
        have hp := viewSteps_prepend rest true s.2
          [{ TotalKills := 0, PlayerScores := [], CauseOfDeath := [] }] (by simp)
        replace h : (viewSteps (true, s.2 ++
            [{ TotalKills := 0, PlayerScores := [], CauseOfDeath := [] }]) rest).map Prod.snd =
            some res := h
        rw [hp, Option.map_map] at h
        obtain ⟨q, hq1, hq2⟩ := Option.map_eq_some'.mp h
        simp only [Function.comp_apply] at hq2
        obtain ⟨y, tl, hy, hseg⟩ := viewSteps_first rest true _ q.2 (by rw [hq1]; rfl)
        have hpf : parseFresh (l :: rest.takeWhile fun l => !isInitGame l) = some [y] := by
          rw [parseFresh_eq_viewSteps]
          simp only [viewSteps, viewStep_initGame hinit, List.nil_append]
          exact hseg
        simp only [matchLines, hinit, if_true, List.map_cons, hpf, hi]
        rw [← hq2, hy]
        simp

theorem run_groups (re : Regex) (s : List Char) (x : List Char × List String)
    (hx : x ∈ Regex.run re s) : x.2.length = Regex.groups re := by
  induction re generalizing s x with
  | lit t =>
    simp only [Regex.run] at hx
    split at hx
    · simp only [List.mem_singleton] at hx
      subst hx
      rfl
    · cases hx
  | plus p =>
    simp only [Regex.run, List.mem_map] at hx
    obtain ⟨r, _, rfl⟩ := hx
    rfl
  | seq a b iha ihb =>
    simp only [Regex.run, List.mem_flatMap, List.mem_map] at hx
    obtain ⟨y, hy, z, hz, rfl⟩ := hx
    simp [Regex.groups, iha s y hy, ihb y.1 z hz]
  | group a iha =>
    simp only [Regex.run, List.mem_map] at hx
    obtain ⟨y, hy, rfl⟩ := hx
    simp [Regex.groups, iha s y hy]

theorem find_length (re : Regex) (s : List Char) :
    Regex.find re s = [] ∨ (Regex.find re s).length = Regex.groups re + 1 := by
  induction s with
  | nil =>
    unfold Regex.find
    rcases h : Regex.run re [] with _ | ⟨x, t⟩
    · exact Or.inl rfl
    · right
      have := run_groups re [] x (by rw [h]; exact List.mem_cons_self _ _)
      simp [this]
  | cons c s ih =>
    unfold Regex.find
    rcases h : Regex.run re (c :: s) with _ | ⟨x, t⟩
    · exact ih
    · right
      have := run_groups re (c :: s) x (by rw [h]; exact List.mem_cons_self _ _)
      simp [this]

/-- A match of the kill pattern has exactly five parts: the matched text, the time, the
killer, the victim and the cause. -/
theorem killRe_match_shape (line : String) (h : (FindStringSubmatch killRe line).length > 4) :
    ∃ whole ts killer victim cause,
      FindStringSubmatch killRe line = [whole, ts, killer, victim, cause] := by
  have hg : Regex.groups killRe = 4 := by decide
  rcases find_length killRe line.toList with h0 | h5
  · unfold FindStringSubmatch at h
    rw [h0] at h
    simp at h
  · rw [hg] at h5
    unfold FindStringSubmatch
    match hm : Regex.find killRe line.toList, h5 with
    | [a, b, c, d, e], _ => exact ⟨a, b, c, d, e, rfl⟩

theorem shutdownGame_idle {qp : QuakeLogParser} (line : String) (h : qp.gameRunning = false) :
    shutdownGameEventHandler.HandleEvent qp line = some qp := by
  simp [shutdownGameEventHandler.HandleEvent, h]

theorem shutdownGame_running {qp : QuakeLogParser} (line : String) (h : qp.gameRunning = true) :
    shutdownGameEventHandler.HandleEvent qp line =
      some { qp with
        allMatches := qp.allMatches ++ [qp.currentMatch]
        gameRunning := false } := by
  simp [shutdownGameEventHandler.HandleEvent, h]

theorem processLine_of_classify_none {qp : QuakeLogParser} {line : String}
    (h : classify line = none) : processLine qp line = some qp := by
  simp [processLine, h]

theorem kill_unmatched {qp : QuakeLogParser} {line : String}
    (h : ¬ (FindStringSubmatch killRe line).length > 4) :
    killEventHandler.HandleEvent qp line = some qp := by
  rw [killHandleEvent_eq, if_neg h]

theorem client_unmatched {qp : QuakeLogParser} {line : String}
    (h : ¬ (FindStringSubmatch clientRe line).length > 1) :
    clientUserinfoChangedEventHandler.HandleEvent qp line = some qp := by
  unfold clientUserinfoChangedEventHandler.HandleEvent
  dsimp only
  rw [if_neg h]

/-- A match of the user info pattern has exactly two parts: the matched text and the name. -/
theorem clientRe_match_shape (line : String)
    (h : (FindStringSubmatch clientRe line).length > 1) :
    ∃ whole name, FindStringSubmatch clientRe line = [whole, name] := by
  have hg : Regex.groups clientRe = 1 := by decide
  rcases find_length clientRe line.toList with h0 | h2
  · unfold FindStringSubmatch at h
    rw [h0] at h
    simp at h
  · rw [hg] at h2
    unfold FindStringSubmatch
    match hm : Regex.find clientRe line.toList, h2 with
    | [a, b], _ => exact ⟨a, b, rfl⟩

theorem client_known {qp : QuakeLogParser} {line : String} {v : Int}
    (h : GoMap.lookup qp.current.PlayerScores ((FindStringSubmatch clientRe line).getD 1 "") =
      some v) :
    clientUserinfoChangedEventHandler.HandleEvent qp line = some qp := by
  unfold clientUserinfoChangedEventHandler.HandleEvent
  dsimp only
  split
  · have h' : GoMap.lookup (Heap.read qp.heap qp.currentMatch.PlayerScores)
        ((FindStringSubmatch clientRe line).getD 1 "") = some v := h
    rw [h']
  · rfl

theorem updateLast_some (f : MatchData → MatchData) {recs : List MatchData} (h : recs ≠ []) :
    ∃ t, updateLast f recs = some t := by
  rw [← List.dropLast_append_getLast h, updateLast_snoc]
  exact ⟨_, rfl⟩

/-- Once a match was opened, no line makes the parser fail. -/
theorem viewStep_some (b : Bool) {recs : List MatchData} (h : recs ≠ []) (line : String) :
    ∃ s', viewStep (b, recs) line = some s' ∧ s'.2 ≠ [] := by
  have hne : ∀ {s' : Bool × List MatchData},
      viewStep (b, recs) line = some s' → s'.2 ≠ [] := by
    intro s' e hnil
    have hl := viewStep_length e
    rw [hnil] at hl
    have hpos : 0 < recs.length := List.length_pos.mpr h
    simp only [List.length_nil] at hl
    omega
  have hex : ∃ s', viewStep (b, recs) line = some s' := by
    unfold viewStep
    rcases classify line with _ | hd
    · exact ⟨_, rfl⟩
    · cases hd with
      | initGameEventHandler => exact ⟨_, rfl⟩
      | shutdownGameEventHandler => exact ⟨_, rfl⟩
      | killEventHandler =>
        dsimp only
        split
        · obtain ⟨t, ht⟩ := updateLast_some
            (MatchData.kill b ((FindStringSubmatch killRe line).getD 2 "")
              ((FindStringSubmatch killRe line).getD 3 "")
              ((FindStringSubmatch killRe line).getD 4 "")) h
          rw [ht]
          exact ⟨_, rfl⟩
        · exact ⟨_, rfl⟩
      | clientUserinfoChangedEventHandler =>
        dsimp only
        split
        · obtain ⟨t, ht⟩ := updateLast_some
            (MatchData.join ((FindStringSubmatch clientRe line).getD 1 "")) h
          rw [ht]
          exact ⟨_, rfl⟩
        · exact ⟨_, rfl⟩
  obtain ⟨s', e⟩ := hex
  exact ⟨s', e, hne e⟩

theorem viewSteps_some (lines : List String) (b : Bool) {recs : List MatchData}
    (h : recs ≠ []) : ∃ s', viewSteps (b, recs) lines = some s' := by
  induction lines generalizing b recs with
  | nil => exact ⟨_, rfl⟩
  | cons l rest ih =>
    obtain ⟨s', e, hne⟩ := viewStep_some b h l
    simp only [viewSteps, e]
    exact ih s'.1 hne

/-- From an `InitGame` line on, the records are the former ones followed by what a fresh
parser returns for the lines. -/
theorem viewSteps_from_initGame {line : String} (hl : isInitGame line = true)
    (rest : List String) (b : Bool) (recs : List MatchData) :
    ∃ RB, (viewSteps (false, []) (line :: rest)).map Prod.snd = some RB ∧
      (viewSteps (b, recs) (line :: rest)).map Prod.snd = some (recs ++ RB) := by
  obtain ⟨s', e⟩ := @viewSteps_some rest true
    [{ TotalKills := 0, PlayerScores := [], CauseOfDeath := [] }] (by simp)
  have hp := viewSteps_prepend rest true recs
    [{ TotalKills := 0, PlayerScores := [], CauseOfDeath := [] }] (by simp)
  refine ⟨s'.2, ?_, ?_⟩
  · simp only [viewSteps, viewStep_initGame hl, List.nil_append, e, Option.map_some']
  · simp only [viewSteps, viewStep_initGame hl, hp, e, Option.map_some']

theorem isInitGame_iff (line : String) :
    isInitGame line = true ↔ classify line = some .initGameEventHandler := by
  simp [isInitGame]

theorem opened_eq_view_length (qp : QuakeLogParser) : qp.opened = qp.view.2.length := by
  unfold QuakeLogParser.view QuakeLogParser.completed QuakeLogParser.opened endOfInput
  cases qp.gameRunning <;> simp

/-- Before the first `InitGame`, a line that neither detail pattern matches and that is no
`InitGame` line leaves the parser without a match. -/
theorem viewStep_before_initGame {line : String} (hi : isInitGame line = false)
    (hk : ¬ (FindStringSubmatch killRe line).length > 4)
    (hc : ¬ (FindStringSubmatch clientRe line).length > 1) :
    viewStep (false, []) line = some (false, []) := by
  unfold viewStep
  rcases hcl : classify line with _ | hd
  · rfl
  · cases hd with
    | initGameEventHandler => simp [isInitGame, hcl] at hi
    | shutdownGameEventHandler => rfl
    | killEventHandler =>
      dsimp only
      rw [if_neg hk]
    | clientUserinfoChangedEventHandler =>
      dsimp only
      rw [if_neg hc]

theorem viewSteps_guarded (lines : List String)
    (h : ∀ pre l post, lines = pre ++ l :: post →
      ((FindStringSubmatch killRe l).length > 4 ∨ (FindStringSubmatch clientRe l).length > 1) →
      ∃ l' ∈ pre, isInitGame l' = true) :
    ∃ s, viewSteps (false, []) lines = some s := by
  induction lines with
  | nil => exact ⟨_, rfl⟩
  | cons l rest ih =>
    cases hi : isInitGame l
    · have hno : ¬ ((FindStringSubmatch killRe l).length > 4 ∨
          (FindStringSubmatch clientRe l).length > 1) := by
        intro hm
        obtain ⟨l', hl', _⟩ := h [] l rest rfl hm
        cases hl'
      have hs := viewStep_before_initGame hi (fun hk => hno (Or.inl hk))
        (fun hc => hno (Or.inr hc))
      simp only [viewSteps, hs]
      apply ih
      intro pre l2 post e hm
      obtain ⟨l', hl', hinit⟩ := h (l :: pre) l2 post (by rw [e]; rfl) hm
      rcases List.mem_cons.mp hl' with rfl | hmem
      · rw [hi] at hinit
        cases hinit
      · exact ⟨l', hmem, hinit⟩
    · simp only [viewSteps, viewStep_initGame hi]
      exact viewSteps_some rest true (by simp)

theorem maps_made_after_initGame (pre : List String) (line : String) (post : List String)
    (qp : QuakeLogParser) (hl : isInitGame line = true)
    (e : processLines NewQuakeLogParser (pre ++ line :: post) = some qp) :
    0 < qp.opened := by
  have hv := processLines_view (pre ++ line :: post) NewQuakeLogParser inv_fresh
  rw [e, Option.map_some'] at hv
  have hlen := viewSteps_length hv.symm
  rw [opened_eq_view_length, hlen]
  have : 0 < (pre ++ line :: post).countP isInitGame := by
    apply List.countP_pos_iff.mpr
    exact ⟨line, by simp, hl⟩
  omega

theorem endOfInput_gameRunning (qp : QuakeLogParser) : (endOfInput qp).gameRunning = false := by
  unfold endOfInput
  split
  · rfl
  · rename_i h
    simpa using h

theorem parseCalls_inv_idle (calls : List (List String)) (qp qp' : QuakeLogParser)
    (hi : Inv qp) (hr : qp.gameRunning = false) (e : parseCalls qp calls = some qp') :
    Inv qp' ∧ qp'.gameRunning = false := by
  induction calls generalizing qp with
  | nil =>
    simp only [parseCalls, Option.some.injEq] at e
    subst e
    exact ⟨hi, hr⟩
  | cons lines rest ih =>
    simp only [parseCalls, ParseLogContent] at e
    rcases h1 : processLines qp lines with _ | q
    · rw [h1] at e
      cases e
    · rw [h1] at e
      exact ih (endOfInput q) (inv_endOfInput (inv_processLines hi h1))
        (endOfInput_gameRunning q) e

theorem viewStep_nil_cases (b : Bool) (line : String) (s1 : Bool × List MatchData)
    (e : viewStep (b, []) line = some s1) :
    isInitGame line = true ∨
      ∃ b', s1 = (b', []) ∧ ∀ R, viewStep (b, R) line = some (b', R) := by
  unfold viewStep at e
  rcases hcl : classify line with _ | hd
  · rw [hcl] at e
    cases e
    exact Or.inr ⟨b, rfl, fun R => by simp [viewStep, hcl]⟩
  · rw [hcl] at e
    cases hd with
    | initGameEventHandler => exact Or.inl (by simp [isInitGame, hcl])
    | shutdownGameEventHandler =>
      cases e
      exact Or.inr ⟨false, rfl, fun R => by simp [viewStep, hcl]⟩
    | killEventHandler =>
      dsimp only at e
      by_cases hm : (FindStringSubmatch killRe line).length > 4
      · rw [if_pos hm, updateLast_nil] at e
        cases e
      · rw [if_neg hm] at e
        cases e
        exact Or.inr ⟨b, rfl, fun R => by simp [viewStep, hcl, hm]⟩
    | clientUserinfoChangedEventHandler =>
      dsimp only at e
      by_cases hm : (FindStringSubmatch clientRe line).length > 1
      · rw [if_pos hm, updateLast_nil] at e
        cases e
      · rw [if_neg hm] at e
        cases e
        exact Or.inr ⟨b, rfl, fun R => by simp [viewStep, hcl, hm]⟩

/-- Lines on which a parser without any match does not fail give the same records behind
records that are there already. -/
theorem viewSteps_prepend_nil (lines : List String) (b : Bool) (R : List MatchData)
    (s : Bool × List MatchData) (e : viewSteps (b, []) lines = some s) :
    viewSteps (b, R) lines = some (s.1, R ++ s.2) := by
  induction lines generalizing b with
  | nil =>
    simp only [viewSteps, Option.some.injEq] at e
    subst e
    simp [viewSteps]
  | cons l rest ih =>
    simp only [viewSteps] at e ⊢
    rcases h1 : viewStep (b, []) l with _ | s1
    · rw [h1] at e
      cases e
    · rw [h1] at e
      rcases viewStep_nil_cases b l s1 h1 with hinit | ⟨b', rfl, hR⟩
      · rw [viewStep_initGame hinit, Option.some.injEq] at h1
        subst h1
        rw [viewStep_initGame hinit]
        have hp := viewSteps_prepend rest true R
          [{ TotalKills := 0, PlayerScores := [], CauseOfDeath := [] }] (by simp)
        simp only [List.nil_append] at e
        simp only [hp, e, Option.map_some']
      · rw [hR R]
        exact ih b' e

theorem parseOn_eq_viewSteps (qp : QuakeLogParser) (lines : List String) (hi : Inv qp) :
    parseOn qp lines = (viewSteps qp.view lines).map Prod.snd := by
  rw [← processLines_view lines qp hi]
  unfold parseOn ParseLogContent
  rcases processLines qp lines with _ | q
  · rfl
  · rfl

theorem matchLines_mem {lines : List String} {seg : List String} (h : seg ∈ matchLines lines) :
    ∃ l0 rest, seg = l0 :: rest ∧ isInitGame l0 = true ∧
      ∀ l ∈ rest, isInitGame l = false := by
  induction lines with
  | nil => simp [matchLines] at h
  | cons l rest ih =>
    unfold matchLines at h
    cases hi : isInitGame l
    · rw [hi] at h
      exact ih h
    · rw [hi] at h
      rcases List.mem_cons.mp h with rfl | h'
      · refine ⟨l, _, rfl, hi, ?_⟩
        intro x hx
        have := List.mem_takeWhile_imp hx
        simpa using this
      · exact ih h'

theorem scoredPlayer_ne {p killer victim : String} (hk : killer ≠ p)
    (hw : ¬ (killer = WORLD_ENTITY ∧ victim = p)) : scoredPlayer killer victim ≠ p := by
  unfold scoredPlayer
  split
  · exact hk
  · rename_i hn
    intro hv
    apply hn
    constructor
    · intro hkw
      exact hw ⟨hkw, hv⟩
    · intro hkv
      exact hk (hkv.trans hv)

/-- One line that is no `InitGame` line, on a single record: the score of `p` stays absent
or 0 when the line is no kill that scores `p`, and is 0 after a line that names `p`. -/
theorem viewStep_score_zero (p : String) (b : Bool) (x : MatchData) (line : String)
    (hi : isInitGame line = false)
    (hk : classify line = some .killEventHandler → SparesPlayer p line)
    (hq : GoMap.lookup x.PlayerScores p = none ∨ GoMap.lookup x.PlayerScores p = some 0) :
    ∃ b' x', viewStep (b, [x]) line = some (b', [x']) ∧
      (GoMap.lookup x'.PlayerScores p = none ∨ GoMap.lookup x'.PlayerScores p = some 0) ∧
      (GoMap.lookup x.PlayerScores p = some 0 → GoMap.lookup x'.PlayerScores p = some 0) ∧
      (NamesPlayer p line → GoMap.lookup x'.PlayerScores p = some 0) := by
  have hnn : ∀ {q : Prop}, classify line ≠ some .clientUserinfoChangedEventHandler →
      NamesPlayer p line → q := fun hne hn => absurd hn.1 hne
  unfold viewStep
  rcases hcl : classify line with _ | hd
  · exact ⟨b, x, rfl, hq, id, hnn (by rw [hcl]; simp)⟩
  · cases hd with
    | initGameEventHandler => simp [isInitGame, hcl] at hi
    | shutdownGameEventHandler => exact ⟨false, x, rfl, hq, id, hnn (by rw [hcl]; simp)⟩
    | killEventHandler =>
      dsimp only
      by_cases hm : (FindStringSubmatch killRe line).length > 4
      · rw [if_pos hm]
        obtain ⟨whole, ts, killer, victim, cause, hshape⟩ := killRe_match_shape line hm
        obtain ⟨h1, h2⟩ := hk hcl whole ts killer victim cause hshape
        have hne := scoredPlayer_ne h1 h2
        rw [hshape]
        simp only [List.getD_cons_succ, List.getD_cons_zero]
        have hl : GoMap.lookup (MatchData.kill b killer victim cause x).PlayerScores p =
            GoMap.lookup x.PlayerScores p := by
          simp only [MatchData.kill]
          exact lookup_set_other _ _ _ _ (Ne.symm hne)
        refine ⟨b, MatchData.kill b killer victim cause x, rfl, by rw [hl]; exact hq,
          by rw [hl]; exact id, hnn (by rw [hcl]; simp)⟩
      · rw [if_neg hm]
        exact ⟨b, x, rfl, hq, id, hnn (by rw [hcl]; simp)⟩
    | clientUserinfoChangedEventHandler =>
      dsimp only
      by_cases hm : (FindStringSubmatch clientRe line).length > 1
      · rw [if_pos hm]
        obtain ⟨whole, name, hshape⟩ := clientRe_match_shape line hm
        rw [hshape]
        simp only [List.getD_cons_succ, List.getD_cons_zero]
        refine ⟨b, MatchData.join name x, rfl, ?_⟩
        by_cases hnp : name = p
        · subst hnp
          have hz : GoMap.lookup (MatchData.join name x).PlayerScores name = some 0 := by
            simp only [MatchData.join]
            rcases hq with h0 | h0
            · rw [h0]
              exact lookup_set_self _ _ _
            · rw [h0]
              exact h0
          exact ⟨Or.inr hz, fun _ => hz, fun _ => hz⟩
        · have hl : GoMap.lookup (MatchData.join name x).PlayerScores p =
              GoMap.lookup x.PlayerScores p := by
            simp only [MatchData.join]
            split
            · rfl
            · exact lookup_set_other _ _ _ _ (Ne.symm hnp)
          refine ⟨by rw [hl]; exact hq, by rw [hl]; exact id, ?_⟩
          rintro ⟨_, w, hw⟩
          rw [hshape] at hw
          simp only [List.cons.injEq, and_true] at hw
          exact absurd hw.2 hnp
      · rw [if_neg hm]
        refine ⟨b, x, rfl, hq, id, ?_⟩
        rintro ⟨_, w, hw⟩
        rw [hw] at hm
        simp at hm

theorem viewSteps_score_zero (p : String) (ls : List String) (b : Bool) (x : MatchData)
    (hi : ∀ l ∈ ls, isInitGame l = false)
    (hk : ∀ l ∈ ls, classify l = some .killEventHandler → SparesPlayer p l)
    (hq : GoMap.lookup x.PlayerScores p = none ∨ GoMap.lookup x.PlayerScores p = some 0) :
    ∃ b' x', viewSteps (b, [x]) ls = some (b', [x']) ∧
      (GoMap.lookup x'.PlayerScores p = none ∨ GoMap.lookup x'.PlayerScores p = some 0) ∧
      (GoMap.lookup x.PlayerScores p = some 0 → GoMap.lookup x'.PlayerScores p = some 0) ∧
      ((∃ l ∈ ls, NamesPlayer p l) → GoMap.lookup x'.PlayerScores p = some 0) := by
  induction ls generalizing b x with
  | nil =>
    refine ⟨b, x, rfl, hq, id, ?_⟩
    rintro ⟨l, hl, _⟩
    cases hl
  | cons l rest ih =>
    obtain ⟨b1, x1, e1, hq1, hz1, hn1⟩ := viewStep_score_zero p b x l
      (hi l (List.mem_cons_self _ _)) (hk l (List.mem_cons_self _ _)) hq
    obtain ⟨b2, x2, e2, hq2, hz2, hn2⟩ := ih b1 x1
      (fun l' hl' => hi l' (List.mem_cons_of_mem _ hl'))
      (fun l' hl' => hk l' (List.mem_cons_of_mem _ hl')) hq1
    refine ⟨b2, x2, by simp only [viewSteps, e1, e2], hq2, fun h => hz2 (hz1 h), ?_⟩
    rintro ⟨l', hl', hnames⟩
    rcases List.mem_cons.mp hl' with rfl | hmem
    · exact hz2 (hn1 hnames)
    · exact hn2 ⟨l', hmem, hnames⟩

theorem lookup_of_mem {m : GoMap} (hm : (m.map Prod.fst).Nodup) {k : String} {v : Int}
    (h : (k, v) ∈ m) : GoMap.lookup m k = some v := by
  induction m with
  | nil => cases h
  | cons x m ih =>
    obtain ⟨k', v'⟩ := x
    simp only [List.map_cons, List.nodup_cons, List.mem_map, not_exists, not_and] at hm
    rcases List.mem_cons.mp h with heq | hmem
    · cases heq
      simp [GoMap.lookup]
    · have hne : k' ≠ k := by
        intro hk
        exact hm.1 (k, v) hmem hk.symm
      simp only [GoMap.lookup, if_neg hne]
      exact ih hm.2 hmem

theorem mem_of_lookup {m : GoMap} {k : String} {v : Int} (h : GoMap.lookup m k = some v) :
    (k, v) ∈ m := by
  induction m with
  | nil => cases h
  | cons x m ih =>
    obtain ⟨k', v'⟩ := x
    simp only [GoMap.lookup] at h
    split at h
    · rename_i hk
      cases h
      rw [hk]
      exact List.mem_cons_self _ _
    · exact List.mem_cons_of_mem _ (ih h)

theorem nodup_of_nodup_keys {m : GoMap} (hm : (m.map Prod.fst).Nodup) : m.Nodup :=
  List.Nodup.of_map _ hm

theorem swo_byValueDescending :
    StrictWeakOrder fun a b : Pair => decide (a.Value > b.Value) := by
  constructor
  · intro a
    simp
  · intro a b c hab hbc
    simp only [gt_iff_lt, decide_eq_true_eq] at hab hbc ⊢
    omega
  · intro a b c hab hbc
    simp only [gt_iff_lt, decide_eq_false_iff_not, not_lt] at hab hbc ⊢
    omega

theorem sortMap_perm (rt : GoRuntime) (m : GoMap) :
    ((SortMapByValueDescending rt m).map fun q => (q.Key, q.Value)).Perm m := by
  unfold SortMapByValueDescending
  dsimp only
  have h1 := (rt.sortSlice_perm (fun a b => decide (a.Value > b.Value))
    ((rt.rangeMap m).map fun kv => ({ Key := kv.1, Value := kv.2 } : Pair))).map
    fun q => (q.Key, q.Value)
  refine h1.trans ?_
  rw [List.map_map]
  have : ((fun q : Pair => (q.Key, q.Value)) ∘ fun kv : String × Int =>
      ({ Key := kv.1, Value := kv.2 } : Pair)) = id := by
    funext kv
    rfl
  rw [this, List.map_id]
  exact rt.rangeMap_perm m

theorem stripLit_append (t s : List Char) : stripLit t (t ++ s) = some s := by
  induction t with
  | nil => cases s <;> rfl
  | cons c t ih => simp [stripLit, ih]

theorem stripLit_some {t s r : List Char} (h : stripLit t s = some r) : s = t ++ r := by
  induction t generalizing s with
  | nil =>
    cases s <;> simp only [stripLit, Option.some.injEq] at h <;> simp [h]
  | cons c t ih =>
    cases s with
    | nil => simp [stripLit] at h
    | cons d s =>
      simp only [stripLit] at h
      split at h
      · rename_i hcd
        rw [hcd, ih h]
        rfl
      · cases h

theorem plusRests_mem {p : Char → Bool} {s r : List Char} (h : r ∈ plusRests p s) :
    ∃ u, u ≠ [] ∧ s = u ++ r := by
  induction s with
  | nil => simp [plusRests] at h
  | cons c s ih =>
    simp only [plusRests] at h
    split at h
    · rcases List.mem_append.mp h with h1 | h1
      · obtain ⟨u, _, hs⟩ := ih h1
        exact ⟨c :: u, by simp, by rw [hs]; rfl⟩
      · simp only [List.mem_singleton] at h1
        exact ⟨[c], by simp, by rw [h1]; rfl⟩
    · cases h

theorem plusRests_stop {p : Char → Bool} {s : List Char}
    (h : ∀ c s', s = c :: s' → p c = false) : plusRests p s = [] := by
  cases s with
  | nil => rfl
  | cons c s' => simp [plusRests, h c s' rfl]

theorem plusRests_head {p : Char → Bool} {pre s : List Char} (hne : pre ≠ [])
    (hp : ∀ c ∈ pre, p c = true) (hs : ∀ c s', s = c :: s' → p c = false) :
    ∃ tl, plusRests p (pre ++ s) = s :: tl := by
  induction pre with
  | nil => exact absurd rfl hne
  | cons c pre ih =>
    have hc : p c = true := hp c (List.mem_cons_self _ _)
    have e : plusRests p (c :: (pre ++ s)) = plusRests p (pre ++ s) ++ [pre ++ s] := by
      simp [plusRests, hc]
    rw [List.cons_append, e]
    cases pre with
    | nil =>
      rw [List.nil_append, plusRests_stop hs]
      exact ⟨[], rfl⟩
    | cons d pre =>
      obtain ⟨tl, htl⟩ := ih (by simp) (fun x hx => hp x (List.mem_cons_of_mem _ hx))
      rw [htl]
      exact ⟨tl ++ [d :: pre ++ s], rfl⟩

theorem head?_flatMap {α β : Type} {l : List α} {f : α → List β} {x : α} {y : β}
    (hl : l.head? = some x) (hf : (f x).head? = some y) : (l.flatMap f).head? = some y := by
  cases l with
  | nil => cases hl
  | cons a l =>
    simp only [List.head?_cons, Option.some.injEq] at hl
    subst hl
    rw [List.flatMap_cons]
    cases hfa : f a with
    | nil => rw [hfa] at hf; cases hf
    | cons b t =>
      rw [hfa] at hf
      simpa using hf

theorem first_seq {a b : Regex} {s : List Char} {x y : List Char × List String}
    (ha : (Regex.run a s).head? = some x) (hb : (Regex.run b x.1).head? = some y) :
    (Regex.run (.seq a b) s).head? = some (y.1, x.2 ++ y.2) := by
  simp only [Regex.run]
  apply head?_flatMap ha
  rw [List.head?_map, hb]
  rfl

theorem first_lit (t s : List Char) : (Regex.run (.lit t) (t ++ s)).head? = some (s, []) := by
  simp [Regex.run, stripLit_append]

theorem first_plus {p : Char → Bool} {pre s : List Char} (hne : pre ≠ [])
    (hp : ∀ c ∈ pre, p c = true) (hs : ∀ c s', s = c :: s' → p c = false) :
    (Regex.run (.plus p) (pre ++ s)).head? = some (s, []) := by
  obtain ⟨tl, htl⟩ := plusRests_head hne hp hs
  simp [Regex.run, htl]

theorem first_group {a : Regex} {s : List Char} {x : List Char × List String}
    (ha : (Regex.run a s).head? = some x) :
    (Regex.run (.group a) s).head? = some (x.1, consumed s x.1 :: x.2) := by
  simp only [Regex.run, List.head?_map, ha]
  rfl

theorem consumed_append (u w : List Char) : consumed (u ++ w) w = String.mk u := by
  simp [consumed]

theorem run_group_plus_seq (p : Char → Bool) (k : Regex) (s : List Char) :
    Regex.run (.seq (.group (.plus p)) k) s =
      (plusRests p s).flatMap fun r =>
        (Regex.run k r).map fun y => (y.1, consumed s r :: y.2) := by
  simp only [Regex.run, List.map_map]
  induction plusRests p s with
  | nil => rfl
  | cons r t ih =>
    simp only [List.map_cons, List.flatMap_cons, ih]
    rfl

theorem flatMap_plusRests_nil {β : Type} (p : Char → Bool) (f : List Char → List β)
    (w : List Char) (h : ∀ u' w', u' ≠ [] → w = u' ++ w' → f w' = []) :
    (plusRests p w).flatMap f = [] := by
  apply List.flatMap_eq_nil_iff.mpr
  intro r hr
  obtain ⟨u, hu, hw⟩ := plusRests_mem hr
  exact h u r hu hw

theorem flatMap_plusRests_append {β : Type} (p : Char → Bool) (f : List Char → List β)
    (u w : List Char) (hne : u ≠ []) (hp : ∀ c ∈ u, p c = true)
    (h : ∀ u' w', u' ≠ [] → w = u' ++ w' → f w' = []) :
    ∃ tl, (plusRests p (u ++ w)).flatMap f = f w ++ tl := by
  induction u with
  | nil => exact absurd rfl hne
  | cons c u ih =>
    have hc : p c = true := hp c (List.mem_cons_self _ _)
    have e : plusRests p (c :: (u ++ w)) = plusRests p (u ++ w) ++ [u ++ w] := by
      simp [plusRests, hc]
    rw [List.cons_append, e, List.flatMap_append]
    cases u with
    | nil =>
      rw [List.nil_append, flatMap_plusRests_nil p f w h]
      exact ⟨[], by simp⟩
    | cons d u =>
      obtain ⟨tl, htl⟩ := ih (by simp) (fun x hx => hp x (List.mem_cons_of_mem _ hx))
      rw [htl]
      exact ⟨tl ++ [d :: u ++ w].flatMap f, by simp⟩

/-- A greedy `c+` group gives back characters until the rest of the pattern matches: when
the rest of the pattern matches at `w` and at no later place of `w`, the group takes `u`. -/
theorem first_backtrack {p : Char → Bool} {k : Regex} {u w : List Char}
    {y : List Char × List String} (hne : u ≠ []) (hp : ∀ c ∈ u, p c = true)
    (h : ∀ u' w', u' ≠ [] → w = u' ++ w' → Regex.run k w' = [])
    (hk : (Regex.run k w).head? = some y) :
    (Regex.run (.seq (.group (.plus p)) k) (u ++ w)).head? = some (y.1, String.mk u :: y.2) := by
  rw [run_group_plus_seq]
  obtain ⟨tl, htl⟩ := flatMap_plusRests_append p
    (fun r => (Regex.run k r).map fun y => (y.1, consumed (u ++ w) r :: y.2)) u w hne hp
    (by
      intro u' w' hu' hw'
      simp only [h u' w' hu' hw', List.map_nil])
  rw [htl, List.head?_append, List.head?_map, hk]
  simp [consumed_append]

/-- After a greedy `c+` group the rest of the pattern is tried at later places only: when it
matches at none of them, the whole does not match. -/
theorem run_backtrack_nil {p : Char → Bool} {k : Regex} {w : List Char}
    (h : ∀ u' w', u' ≠ [] → w = u' ++ w' → Regex.run k w' = []) :
    Regex.run (.seq (.group (.plus p)) k) w = [] := by
  rw [run_group_plus_seq]
  apply flatMap_plusRests_nil
  intro u' w' hu' hw'
  simp only [h u' w' hu' hw', List.map_nil]

theorem run_lit_seq_nil {t : List Char} {k : Regex} {s : List Char}
    (h : ∀ r, s = t ++ r → Regex.run k r = []) : Regex.run (.seq (.lit t) k) s = [] := by
  simp only [Regex.run]
  rcases hs : stripLit t s with _ | r
  · rfl
  · simp [h r (stripLit_some hs)]

/-- In ` by ` followed by a cause without white space, ` by ` does not start at a later
place. -/
theorem by_not_later {C q y : List Char} (hC : ∀ c ∈ C, isSpace c = false) (hq : q ≠ [])
    (h : " by ".toList ++ C = q ++ (" by ".toList ++ y)) : False := by
  have hsp : isSpace ' ' = true := by decide
  have hmem : ' ' ∈ C → False := fun hm => by
    rw [hC ' ' hm] at hsp
    cases hsp
  change [' ', 'b', 'y', ' '] ++ C = q ++ ([' ', 'b', 'y', ' '] ++ y) at h
  rcases q with _ | ⟨c1, _ | ⟨c2, _ | ⟨c3, _ | ⟨c4, q'⟩⟩⟩⟩
  · exact hq rfl
  · simp at h
  · simp at h
  · simp only [List.cons_append, List.nil_append, List.cons.injEq] at h
    obtain ⟨_, _, _, _, hC'⟩ := h
    exact hmem (by rw [hC']; simp)
  · simp only [List.cons_append, List.nil_append, List.cons.injEq] at h
    obtain ⟨_, _, _, _, hC'⟩ := h
    exact hmem (by rw [hC']; simp)

/-- When `killed ` occurs in a victim without `killed ` followed by more text, it ends in
that text. -/
theorem killed_inside {A r V S : List Char} (hV : ¬ "killed ".toList <:+: V)
    (h : A ++ ("killed ".toList ++ r) = V ++ S) : ∃ q, q ≠ [] ∧ S = q ++ r := by
  rw [← List.append_assoc] at h
  rcases List.append_eq_append_iff.mp h with ⟨a', hV', _⟩ | ⟨c', hc', hS⟩
  · exact absurd ⟨A, a', by rw [hV']⟩ hV
  · refine ⟨c', ?_, hS⟩
    rintro rfl
    rw [List.append_nil] at hc'
    exact hV ⟨A, [], by rw [List.append_nil, hc']⟩

/-- A later ` killed ` in ` killed ` followed by `W` lies in `W`, one character in at least. -/
theorem killed_later {u W r : List Char} (hu : u ≠ [])
    (h : " killed ".toList ++ W = u ++ (" killed ".toList ++ r)) :
    ∃ A, W = A ++ ("killed ".toList ++ r) := by
  change [' ', 'k', 'i', 'l', 'l', 'e', 'd', ' '] ++ W =
    u ++ ([' ', 'k', 'i', 'l', 'l', 'e', 'd', ' '] ++ r) at h
  change ∃ A, W = A ++ (['k', 'i', 'l', 'l', 'e', 'd', ' '] ++ r)
  rcases u with _ | ⟨c0, _ | ⟨c1, _ | ⟨c2, _ | ⟨c3, _ | ⟨c4, _ | ⟨c5, _ | ⟨c6, _ |
    ⟨c7, u'⟩⟩⟩⟩⟩⟩⟩⟩
  · exact absurd rfl hu
  · simp at h
  · simp at h
  · simp at h
  · simp at h
  · simp at h
  · simp at h
  · simp only [List.cons_append, List.nil_append, List.cons.injEq] at h
    exact ⟨[], by simp [h]⟩
  · simp only [List.cons_append, List.nil_append, List.cons.injEq] at h
    obtain ⟨_, _, _, _, _, _, _, _, hW⟩ := h
    exact ⟨u' ++ [' '], by rw [hW]; simp⟩

theorem by_tail_fails (g : Regex) {C q w : List Char} (hC : ∀ c ∈ C, isSpace c = false)
    (hq : q ≠ []) (h : " by ".toList ++ C = q ++ w) :
    Regex.run (.seq (.lit " by ".toList) g) w = [] := by
  apply run_lit_seq_nil
  intro y hy
  rw [hy] at h
  exact absurd h (fun h => by_not_later hC hq h)

theorem victim_part_fails (p : Char → Bool) (g : Regex) {C q r : List Char}
    (hC : ∀ c ∈ C, isSpace c = false) (hq : q ≠ []) (h : " by ".toList ++ C = q ++ r) :
    Regex.run (.seq (.group (.plus p)) (.seq (.lit " by ".toList) g)) r = [] := by
  apply run_backtrack_nil
  intro u' w' _ hw
  exact by_tail_fails g hC (show q ++ u' ≠ [] by simp [hq])
    (by rw [h, hw, List.append_assoc])

theorem killed_tail_fails (p : Char → Bool) (g : Regex) {V C u w : List Char}
    (hV : ¬ "killed ".toList <:+: V) (hC : ∀ c ∈ C, isSpace c = false) (hu : u ≠ [])
    (h : " killed ".toList ++ (V ++ (" by ".toList ++ C)) = u ++ w) :
    Regex.run (.seq (.lit " killed ".toList)
      (.seq (.group (.plus p)) (.seq (.lit " by ".toList) g))) w = [] := by
  apply run_lit_seq_nil
  intro r hr
  rw [hr] at h
  obtain ⟨A, hA⟩ := killed_later hu h
  obtain ⟨q, hq, hS⟩ := killed_inside hV hA.symm
  exact victim_part_fails p g hC hq hS

theorem first_digits_lit {pre t rest : List Char} {k : Regex} {y : List Char × List String}
    (hne : pre ≠ []) (hp : ∀ c ∈ pre, isDigit c = true)
    (ht : ∀ c s', t ++ rest = c :: s' → isDigit c = false)
    (hk : (Regex.run k rest).head? = some y) :
    (Regex.run (.seq (.plus isDigit) (.seq (.lit t) k)) (pre ++ (t ++ rest))).head? =
      some y := by
  have h1 := first_seq (first_lit t rest) hk
  have h2 := first_seq (first_plus hne hp ht) h1
  simpa using h2

theorem killRe_first (m s a b c K V C : List Char)
    (hm : m ≠ []) (hmd : ∀ x ∈ m, isDigit x = true)
    (hs : s ≠ []) (hsd : ∀ x ∈ s, isDigit x = true)
    (ha : a ≠ []) (had : ∀ x ∈ a, isDigit x = true)
    (hb : b ≠ []) (hbd : ∀ x ∈ b, isDigit x = true)
    (hc : c ≠ []) (hcd : ∀ x ∈ c, isDigit x = true)
    (hK : K ≠ []) (hKn : ∀ x ∈ K, x ≠ '\n')
    (hV : V ≠ []) (hVn : ∀ x ∈ V, x ≠ '\n') (hVk : ¬ "killed ".toList <:+: V)
    (hC : C ≠ []) (hCs : ∀ x ∈ C, isSpace x = false) :
    (Regex.run killRe (m ++ (":".toList ++ (s ++ (" Kill: ".toList ++ (a ++ (" ".toList ++ (b ++
      (" ".toList ++ (c ++ (": ".toList ++ (K ++ (" killed ".toList ++ (V ++ (" by ".toList ++
      (C)))))))))))))))).head? =
      some ([], [String.mk (m ++ (":".toList ++ s)), String.mk K, String.mk V,
        String.mk C]) := by
  have hnl : ∀ {l : List Char},
      (∀ x ∈ l, x ≠ '\n') → ∀ x ∈ l, (x != '\n') = true := by
    intro l h x hx
    simpa using h x hx
  have hns : ∀ x ∈ C, (!isSpace x) = true := by
    intro x hx
    simp [hCs x hx]
  have h4 : (Regex.run (.group (.plus fun c => !isSpace c)) (C ++ [])).head? =
      some ([], [consumed (C ++ []) []]) :=
    first_group (first_plus hC hns (by intro c s' h; cases h))
  rw [consumed_append, List.append_nil] at h4
  have h3' := first_seq (first_lit " by ".toList C) h4
  have h3 := @first_backtrack (fun c => c != '\n') _ _ _ _ hV (hnl hVn)
    (fun u' w' hu hw => by_tail_fails (.group (.plus fun c => !isSpace c)) hCs hu hw) h3'
  have h2' := first_seq (first_lit " killed ".toList (V ++ (" by ".toList ++ C))) h3
  have h2 := @first_backtrack (fun c => c != '\n') _ _ _ _ hK (hnl hKn)
    (fun u' w' hu hw => killed_tail_fails (fun c => c != '\n')
      (.group (.plus fun c => !isSpace c)) hVk hCs hu hw) h2'
  have hd3 := @first_digits_lit c ": ".toList _ _ _ hc hcd
    (by intro x s' h; cases h; decide) h2
  have hd2 := @first_digits_lit b " ".toList _ _ _ hb hbd
    (by intro x s' h; cases h; decide) hd3
  have hd1 := @first_digits_lit a " ".toList _ _ _ ha had
    (by intro x s' h; cases h; decide) hd2
  have hl := first_seq (first_lit " Kill: ".toList _) hd1
  have hg1 : (Regex.run (.group (.seq (.plus isDigit) (.seq (.lit ":".toList) (.plus isDigit))))
      ((m ++ (":".toList ++ s)) ++ (" Kill: ".toList ++ (a ++ (" ".toList ++ (b ++ (" ".toList ++
        (c ++ (": ".toList ++ (K ++ (" killed ".toList ++ (V ++ (" by ".toList ++
        (C)))))))))))))).head? =
      some (" Kill: ".toList ++ (a ++ (" ".toList ++ (b ++ (" ".toList ++ (c ++ (": ".toList ++
        (K ++ (" killed ".toList ++ (V ++ (" by ".toList ++ (C))))))))))), [String.mk (m ++
        (":".toList ++ s))]) := by
    have i1 := @first_plus isDigit s (" Kill: ".toList ++ (a ++ (" ".toList ++ (b ++
      (" ".toList ++ (c ++ (": ".toList ++ (K ++ (" killed ".toList ++ (V ++ (" by ".toList ++
      (C)))))))))))) hs hsd
      (by intro x s' h; cases h; decide)
    have i2 := first_seq (first_lit ":".toList _) i1
    have i3 := first_seq (@first_plus isDigit m _ hm hmd
      (by intro x s' h; cases h; decide)) i2
    have i4 := first_group i3
    simp only [List.append_assoc] at i4 ⊢
    rw [i4]
    simp only [List.append_nil, List.nil_append, Option.some.injEq, Prod.mk.injEq, true_and,
      List.cons.injEq, and_true]
    rw [← List.append_assoc, ← List.append_assoc, consumed_append]
    simp
  have hall := first_seq hg1 hl
  simp only [List.append_assoc, List.nil_append, List.append_nil, List.singleton_append]
    at hall
  simp only [killRe, Regex.cat]
  exact hall

theorem find_of_first {re : Regex} {l : List Char} {x : List Char × List String}
    (hl : l ≠ []) (h : (Regex.run re l).head? = some x) :
    Regex.find re l = consumed l x.1 :: x.2 := by
  cases l with
  | nil => exact absurd rfl hl
  | cons c t =>
    unfold Regex.find
    rcases hr : Regex.run re (c :: t) with _ | ⟨y, ys⟩
    · rw [hr] at h
      cases h
    · rw [hr] at h
      simp only [List.head?_cons, Option.some.injEq] at h
      subst h
      rfl

theorem toList_ne_nil {s : String} (h : s ≠ "") : s.toList ≠ [] := by
  intro hn
  apply h
  apply String.ext
  simpa using hn

/-! ## The claims -/

/-- C1, as the code behaves: a kill line handled after `ShutdownGame` is counted in the
`CauseOfDeath` map that the completed record shares with `currentMatch`, but not in the
record's `TotalKills`; the record returned has `TotalKills` 0 and a `CauseOfDeath` sum of 1. -/
theorem totalKills_differs_from_cause_sum :
    parseFresh ["0:00 InitGame:", "0:01 ShutdownGame:", "0:02 Kill: 1 2 3: a killed b by c"] =
      some [{ TotalKills := 0, PlayerScores := [("a", 1)], CauseOfDeath := [("c", 1)] }] ∧
    ∃ r ∈ (parseFresh ["0:00 InitGame:", "0:01 ShutdownGame:",
        "0:02 Kill: 1 2 3: a killed b by c"]).getD [],
      r.TotalKills ≠ GoMap.sumValues r.CauseOfDeath := by
  decide

/-- C2: in a reachable state the `InitGame` handler returns a state with a match running whose
current record is new (`TotalKills` 0, two newly made empty maps); when a match was running,
the completed records are the former ones, unchanged, followed by the former current record
with the contents it had; when no match was running, the completed records are unchanged. -/
theorem initGame_closes_and_opens (qp : QuakeLogParser) (line : String) (hr : Reachable qp) :
    ∃ qp', HandleEvent .initGameEventHandler qp line = some qp' ∧
      qp'.gameRunning = true ∧
      qp'.current = { TotalKills := 0, PlayerScores := [], CauseOfDeath := [] } ∧
      qp'.currentMatch.PlayerScores = some qp.heap.length ∧
      qp'.currentMatch.CauseOfDeath = some (qp.heap.length + 1) ∧
      (qp.gameRunning = true → qp'.completed = qp.completed ++ [qp.current]) ∧
      (qp.gameRunning = false → qp'.completed = qp.completed) := by
  obtain ⟨qp', e, hr', hcur, hp, hc, hcomp⟩ := initGame_step qp line (inv_of_reachable hr)
  refine ⟨qp', e, hr', hcur, hp, hc, ?_, ?_⟩
  · intro hrun
    rw [hcomp, endOfInput_completed_running hrun]
  · intro hrun
    rw [hcomp, endOfInput_idle hrun]

theorem initGame_closes_and_opens_witness :
    Reachable scoredExample ∧
    ∃ qp', HandleEvent .initGameEventHandler scoredExample "12:00 InitGame:" = some qp' ∧
      qp'.gameRunning = true ∧
      qp'.current = { TotalKills := 0, PlayerScores := [], CauseOfDeath := [] } ∧
      qp'.currentMatch.PlayerScores = some scoredExample.heap.length ∧
      qp'.currentMatch.CauseOfDeath = some (scoredExample.heap.length + 1) ∧
      (scoredExample.gameRunning = true →
        qp'.completed = scoredExample.completed ++ [scoredExample.current]) ∧
      (scoredExample.gameRunning = false → qp'.completed = scoredExample.completed) :=
  ⟨reachable_scoredExample,
    initGame_closes_and_opens scoredExample "12:00 InitGame:" reachable_scoredExample⟩

/-- C3: a line that the loop hands to the `ShutdownGame` handler, put after any sequence of
lines, does not change what `ParseLogContent` gives on a fresh parser: the same records with
the same contents, or a panic in both cases.  When the lines leave a match running, the
records returned are the completed ones followed by the running match. -/
theorem implicit_close (lines : List String) (l : String)
    (hl : classify l = some .shutdownGameEventHandler) :
    parseFresh (lines ++ [l]) = parseFresh lines ∧
    ∀ qp, processLines NewQuakeLogParser lines = some qp → qp.gameRunning = true →
      parseFresh lines = some (qp.completed ++ [qp.current]) := by
  constructor
  · unfold parseFresh ParseLogContent
    rw [processLines_append]
    rcases processLines NewQuakeLogParser lines with _ | qp
    · rfl
    · simp only [Option.some_bind, processLines, processLine, hl, HandleEvent]
      rcases e : shutdownGameEventHandler.HandleEvent qp l with _ | q
      · simp [shutdownGameEventHandler.HandleEvent] at e
        split at e <;> simp at e
      · simp only [endOfInput_shutdown qp q l e]
  · intro qp e hrun
    unfold parseFresh ParseLogContent
    rw [e]
    simp [endOfInput, hrun, QuakeLogParser.completed, QuakeLogParser.current]

theorem implicit_close_witness :
    classify "0:00 ShutdownGame:" = some .shutdownGameEventHandler ∧
    parseFresh (["11:47 InitGame:",
        "11:47 Kill: 4 2 7: Zeh killed Dono da Bola by MOD_ROCKET_SPLASH"] ++
        ["0:00 ShutdownGame:"]) =
      parseFresh ["11:47 InitGame:",
        "11:47 Kill: 4 2 7: Zeh killed Dono da Bola by MOD_ROCKET_SPLASH"] ∧
    ∀ qp, processLines NewQuakeLogParser ["11:47 InitGame:",
        "11:47 Kill: 4 2 7: Zeh killed Dono da Bola by MOD_ROCKET_SPLASH"] = some qp →
      qp.gameRunning = true →
      parseFresh ["11:47 InitGame:",
        "11:47 Kill: 4 2 7: Zeh killed Dono da Bola by MOD_ROCKET_SPLASH"] =
        some (qp.completed ++ [qp.current]) :=
  ⟨by decide, implicit_close ["11:47 InitGame:",
    "11:47 Kill: 4 2 7: Zeh killed Dono da Bola by MOD_ROCKET_SPLASH"] "0:00 ShutdownGame:"
    (by decide)⟩

/-- C4: when `ParseLogContent` on a fresh parser returns, it returns as many records as there
are lines handed to the `InitGame` handler, and the `i`-th record is the record of the match
that the `i`-th of these lines opened: the one record that the parser returns for that line
and the lines after it up to the next `InitGame` line, whether or not a `ShutdownGame` line
is among them. -/
theorem every_opened_match_once (lines : List String) (res : List MatchData)
    (h : parseFresh lines = some res) :
    res.length = lines.countP isInitGame ∧
    (matchLines lines).map parseFresh = res.map fun r => some [r] := by
  rw [parseFresh_eq_viewSteps] at h
  constructor
  · obtain ⟨q, hq1, hq2⟩ := Option.map_eq_some'.mp h
    have := viewSteps_length hq1
    rw [hq2] at this
    simpa using this
  · have := viewSteps_matchLines lines (false, []) res h
    simpa using this

set_option maxRecDepth 100000 in
theorem every_opened_match_once_witness :
    parseFresh ["11:47 InitGame:",
        "11:47 Kill: 4 2 7: Zeh killed Dono da Bola by MOD_ROCKET_SPLASH",
        "12:00 InitGame:",
        "12:01 Kill: 1022 2 22: <world> killed Dono da Bola by MOD_TRIGGER_HURT",
        "12:01 ShutdownGame:"] =
      some [{ TotalKills := 1, PlayerScores := [("Zeh", 1)],
              CauseOfDeath := [("MOD_ROCKET_SPLASH", 1)] },
            { TotalKills := 1, PlayerScores := [("Dono da Bola", -1)],
              CauseOfDeath := [("MOD_TRIGGER_HURT", 1)] }] ∧
    [({ TotalKills := 1, PlayerScores := [("Zeh", 1)],
        CauseOfDeath := [("MOD_ROCKET_SPLASH", 1)] } : MatchData),
      { TotalKills := 1, PlayerScores := [("Dono da Bola", -1)],
        CauseOfDeath := [("MOD_TRIGGER_HURT", 1)] }].length =
      List.countP isInitGame ["11:47 InitGame:",
        "11:47 Kill: 4 2 7: Zeh killed Dono da Bola by MOD_ROCKET_SPLASH",
        "12:00 InitGame:",
        "12:01 Kill: 1022 2 22: <world> killed Dono da Bola by MOD_TRIGGER_HURT",
        "12:01 ShutdownGame:"] ∧
    (matchLines ["11:47 InitGame:",
        "11:47 Kill: 4 2 7: Zeh killed Dono da Bola by MOD_ROCKET_SPLASH",
        "12:00 InitGame:",
        "12:01 Kill: 1022 2 22: <world> killed Dono da Bola by MOD_TRIGGER_HURT",
        "12:01 ShutdownGame:"]).map parseFresh =
      [({ TotalKills := 1, PlayerScores := [("Zeh", 1)],
          CauseOfDeath := [("MOD_ROCKET_SPLASH", 1)] } : MatchData),
        { TotalKills := 1, PlayerScores := [("Dono da Bola", -1)],
          CauseOfDeath := [("MOD_TRIGGER_HURT", 1)] }].map fun r => some [r] :=
  ⟨by decide, every_opened_match_once _ _ (by decide)⟩

/-- C5, as the code behaves: the kill handler does not look at `gameRunning`.  With no match
running after a `ShutdownGame` it changes `PlayerScores` and `CauseOfDeath` of the last
completed record, and on a fresh parser, before any `InitGame`, it panics. -/
theorem kill_while_idle_has_effect :
    processLines NewQuakeLogParser ["0:00 InitGame:", "0:01 ShutdownGame:"] = some idleExample ∧
    idleExample.gameRunning = false ∧
    idleExample.completed = [{ TotalKills := 0, PlayerScores := [], CauseOfDeath := [] }] ∧
    (HandleEvent .killEventHandler idleExample "0:02 Kill: 1 2 3: a killed b by c").map
        QuakeLogParser.completed =
      some [{ TotalKills := 0, PlayerScores := [("a", 1)], CauseOfDeath := [("c", 1)] }] ∧
    NewQuakeLogParser.gameRunning = false ∧
    HandleEvent .killEventHandler NewQuakeLogParser "0:02 Kill: 1 2 3: a killed b by c" =
      none := by
  decide

/-- C6, as the code behaves: the user info handler does not look at `gameRunning`.  With no
match running after a `ShutdownGame` it adds the player to `PlayerScores` of the last
completed record, and on a fresh parser, before any `InitGame`, it panics. -/
theorem userinfo_while_idle_has_effect :
    processLines NewQuakeLogParser ["0:00 InitGame:", "0:01 ShutdownGame:"] = some idleExample ∧
    idleExample.gameRunning = false ∧
    idleExample.completed = [{ TotalKills := 0, PlayerScores := [], CauseOfDeath := [] }] ∧
    (HandleEvent .clientUserinfoChangedEventHandler idleExample
        "0:02 ClientUserinfoChanged: 2 n\\Zeh\\t\\0").map QuakeLogParser.completed =
      some [{ TotalKills := 0, PlayerScores := [("Zeh", 0)], CauseOfDeath := [] }] ∧
    NewQuakeLogParser.gameRunning = false ∧
    HandleEvent .clientUserinfoChangedEventHandler NewQuakeLogParser
        "0:02 ClientUserinfoChanged: 2 n\\Zeh\\t\\0" = none := by
  decide

/-- C7, as the code behaves: `ParseLogContent` on a fresh parser panics when a line that the
kill pattern or the user info pattern matches comes before any `InitGame` line: the maps of
`currentMatch` are still nil and the handler assigns to one of them. -/
theorem parse_panics_before_initGame :
    parseFresh ["20:54 Kill: 1022 2 22: <world> killed Isgalamido by MOD_TRIGGER_HURT"] = none ∧
    parseFresh ["20:38 ClientUserinfoChanged: 2 n\\Isgalamido\\t\\0\\model\\uriel/zael"] = none ∧
    parseFresh ["20:54 Kill: 1022 2 22: <world> killed Isgalamido by MOD_TRIGGER_HURT",
      "20:59 InitGame:"] = none := by
  decide

/-- C8: in a reachable state with a match running, the kill handler, on a line from which its
pattern extracts killer, victim and cause with the killer neither `<world>` nor the victim,
returns a state in which the killer's entry of the current `PlayerScores` is its former score
(0 when there was no entry) plus 1 and the entry of every other player, the victim included,
is as before. -/
theorem kill_scores_killer (qp : QuakeLogParser) (line whole ts killer victim cause : String)
    (hr : Reachable qp) (hrun : qp.gameRunning = true)
    (hm : FindStringSubmatch killRe line = [whole, ts, killer, victim, cause])
    (hw : killer ≠ WORLD_ENTITY) (hv : killer ≠ victim) :
    ∃ qp', HandleEvent .killEventHandler qp line = some qp' ∧
      GoMap.lookup qp'.current.PlayerScores killer =
        some (GoMap.get qp.current.PlayerScores killer + 1) ∧
      (∀ p, p ≠ killer →
        GoMap.lookup qp'.current.PlayerScores p = GoMap.lookup qp.current.PlayerScores p) ∧
      GoMap.lookup qp'.current.PlayerScores victim =
        GoMap.lookup qp.current.PlayerScores victim := by
  have ho : 0 < qp.opened := by rw [opened_of_running hrun]; omega
  obtain ⟨qp', e, _, _, _, _, hps, _, _⟩ := kill_opened (inv_of_reachable hr) ho hm
  have hpl : scoredPlayer killer victim = killer := by simp [scoredPlayer, hw, hv]
  have hdl : scoredDelta killer victim = 1 := by simp [scoredDelta, hw, hv]
  rw [hpl, hdl] at hps
  refine ⟨qp', e, ?_, ?_, ?_⟩
  · rw [hps, lookup_set_self]
  · intro p hp
    rw [hps, lookup_set_other _ _ _ _ hp]
  · rw [hps, lookup_set_other _ _ _ _ (Ne.symm hv)]

theorem kill_scores_killer_witness :
    Reachable runningExample ∧ runningExample.gameRunning = true ∧
    FindStringSubmatch killRe "11:47 Kill: 4 2 7: Zeh killed Dono da Bola by MOD_ROCKET_SPLASH" =
      ["11:47 Kill: 4 2 7: Zeh killed Dono da Bola by MOD_ROCKET_SPLASH", "11:47", "Zeh",
        "Dono da Bola", "MOD_ROCKET_SPLASH"] ∧
    "Zeh" ≠ WORLD_ENTITY ∧ "Zeh" ≠ "Dono da Bola" ∧
    ∃ qp', HandleEvent .killEventHandler runningExample
        "11:47 Kill: 4 2 7: Zeh killed Dono da Bola by MOD_ROCKET_SPLASH" = some qp' ∧
      GoMap.lookup qp'.current.PlayerScores "Zeh" =
        some (GoMap.get runningExample.current.PlayerScores "Zeh" + 1) ∧
      (∀ p, p ≠ "Zeh" → GoMap.lookup qp'.current.PlayerScores p =
        GoMap.lookup runningExample.current.PlayerScores p) ∧
      GoMap.lookup qp'.current.PlayerScores "Dono da Bola" =
        GoMap.lookup runningExample.current.PlayerScores "Dono da Bola" :=
  ⟨reachable_runningExample, rfl, by decide, by decide, by decide,
    kill_scores_killer runningExample
      "11:47 Kill: 4 2 7: Zeh killed Dono da Bola by MOD_ROCKET_SPLASH"
      "11:47 Kill: 4 2 7: Zeh killed Dono da Bola by MOD_ROCKET_SPLASH" "11:47" "Zeh"
      "Dono da Bola" "MOD_ROCKET_SPLASH" reachable_runningExample rfl (by decide) (by decide)
      (by decide)⟩

/-- C9: in a reachable state with a match running, the kill handler, on a line from which its
pattern extracts killer, victim and cause with the killer `<world>` or the victim itself,
returns a state in which the victim's entry of the current `PlayerScores` is its former score
(0 when there was no entry) minus 1, so it may be negative, and the entry of every other
player is as before; no entry for `<world>` appears or changes when the victim has another
name. -/
theorem kill_scores_victim (qp : QuakeLogParser) (line whole ts killer victim cause : String)
    (hr : Reachable qp) (hrun : qp.gameRunning = true)
    (hm : FindStringSubmatch killRe line = [whole, ts, killer, victim, cause])
    (hk : killer = WORLD_ENTITY ∨ killer = victim) :
    ∃ qp', HandleEvent .killEventHandler qp line = some qp' ∧
      GoMap.lookup qp'.current.PlayerScores victim =
        some (GoMap.get qp.current.PlayerScores victim - 1) ∧
      (∀ p, p ≠ victim →
        GoMap.lookup qp'.current.PlayerScores p = GoMap.lookup qp.current.PlayerScores p) ∧
      (victim ≠ WORLD_ENTITY →
        GoMap.lookup qp'.current.PlayerScores WORLD_ENTITY =
          GoMap.lookup qp.current.PlayerScores WORLD_ENTITY) := by
  have ho : 0 < qp.opened := by rw [opened_of_running hrun]; omega
  obtain ⟨qp', e, _, _, _, _, hps, _, _⟩ := kill_opened (inv_of_reachable hr) ho hm
  have hn : ¬ (killer ≠ WORLD_ENTITY ∧ killer ≠ victim) := by
    rintro ⟨h1, h2⟩
    rcases hk with h | h
    · exact h1 h
    · exact h2 h
  have hpl : scoredPlayer killer victim = victim := by simp only [scoredPlayer, if_neg hn]
  have hdl : scoredDelta killer victim = -1 := by simp only [scoredDelta, if_neg hn]
  rw [hpl, hdl] at hps
  refine ⟨qp', e, ?_, ?_, ?_⟩
  · rw [hps, lookup_set_self]
    rfl
  · intro p hp
    rw [hps, lookup_set_other _ _ _ _ hp]
  · intro hp
    rw [hps, lookup_set_other _ _ _ _ (Ne.symm hp)]

theorem kill_scores_victim_witness :
    Reachable runningExample ∧ runningExample.gameRunning = true ∧
    FindStringSubmatch killRe
        "11:47 Kill: 1022 2 22: <world> killed Dono da Bola by MOD_TRIGGER_HURT" =
      ["11:47 Kill: 1022 2 22: <world> killed Dono da Bola by MOD_TRIGGER_HURT", "11:47",
        "<world>", "Dono da Bola", "MOD_TRIGGER_HURT"] ∧
    ("<world>" = WORLD_ENTITY ∨ "<world>" = "Dono da Bola") ∧
    ∃ qp', HandleEvent .killEventHandler runningExample
        "11:47 Kill: 1022 2 22: <world> killed Dono da Bola by MOD_TRIGGER_HURT" = some qp' ∧
      GoMap.lookup qp'.current.PlayerScores "Dono da Bola" =
        some (GoMap.get runningExample.current.PlayerScores "Dono da Bola" - 1) ∧
      (∀ p, p ≠ "Dono da Bola" → GoMap.lookup qp'.current.PlayerScores p =
        GoMap.lookup runningExample.current.PlayerScores p) ∧
      ("Dono da Bola" ≠ WORLD_ENTITY →
        GoMap.lookup qp'.current.PlayerScores WORLD_ENTITY =
          GoMap.lookup runningExample.current.PlayerScores WORLD_ENTITY) :=
  ⟨reachable_runningExample, rfl, by decide, Or.inl rfl,
    kill_scores_victim runningExample
      "11:47 Kill: 1022 2 22: <world> killed Dono da Bola by MOD_TRIGGER_HURT"
      "11:47 Kill: 1022 2 22: <world> killed Dono da Bola by MOD_TRIGGER_HURT" "11:47"
      "<world>" "Dono da Bola" "MOD_TRIGGER_HURT" reachable_runningExample rfl (by decide)
      (Or.inl rfl)⟩

/-- C10: in a reachable state with a match running, the kill handler, on a line from which
its pattern extracts killer, victim and cause `c` (whatever the killer and the victim), returns
a state in which the current `TotalKills` is one more, the entry `c` of the current
`CauseOfDeath` is its former count (0 when absent) plus 1, every other entry of `CauseOfDeath`
is as before, the completed records are the same and a match is still running. -/
theorem kill_counts (qp : QuakeLogParser) (line whole ts killer victim cause : String)
    (hr : Reachable qp) (hrun : qp.gameRunning = true)
    (hm : FindStringSubmatch killRe line = [whole, ts, killer, victim, cause]) :
    ∃ qp', HandleEvent .killEventHandler qp line = some qp' ∧
      qp'.current.TotalKills = qp.current.TotalKills + 1 ∧
      GoMap.lookup qp'.current.CauseOfDeath cause =
        some (GoMap.get qp.current.CauseOfDeath cause + 1) ∧
      (∀ c, c ≠ cause →
        GoMap.lookup qp'.current.CauseOfDeath c = GoMap.lookup qp.current.CauseOfDeath c) ∧
      qp'.allMatches = qp.allMatches ∧
      qp'.completed = qp.completed ∧
      qp'.gameRunning = true := by
  have ho : 0 < qp.opened := by rw [opened_of_running hrun]; omega
  have hi := inv_of_reachable hr
  obtain ⟨qp', e, hg, ha, hc, _, _, hcd, hfr⟩ := kill_opened hi ho hm
  refine ⟨qp', e, ?_, ?_, ?_, ha, ?_, by rw [hg, hrun]⟩
  · simp [QuakeLogParser.current, QuakeMatch.data, hc]
  · rw [hcd, lookup_set_self]
  · intro c hne
    rw [hcd, lookup_set_other _ _ _ _ hne]
  · unfold QuakeLogParser.completed
    rw [ha]
    apply map_data_congr hi.done
    intro a hlt
    apply hfr
    rw [opened_of_running hrun]
    omega

theorem kill_counts_witness :
    Reachable runningExample ∧ runningExample.gameRunning = true ∧
    FindStringSubmatch killRe "11:47 Kill: 4 2 7: Zeh killed Dono da Bola by MOD_ROCKET_SPLASH" =
      ["11:47 Kill: 4 2 7: Zeh killed Dono da Bola by MOD_ROCKET_SPLASH", "11:47", "Zeh",
        "Dono da Bola", "MOD_ROCKET_SPLASH"] ∧
    ∃ qp', HandleEvent .killEventHandler runningExample
        "11:47 Kill: 4 2 7: Zeh killed Dono da Bola by MOD_ROCKET_SPLASH" = some qp' ∧
      qp'.current.TotalKills = runningExample.current.TotalKills + 1 ∧
      GoMap.lookup qp'.current.CauseOfDeath "MOD_ROCKET_SPLASH" =
        some (GoMap.get runningExample.current.CauseOfDeath "MOD_ROCKET_SPLASH" + 1) ∧
      (∀ c, c ≠ "MOD_ROCKET_SPLASH" → GoMap.lookup qp'.current.CauseOfDeath c =
        GoMap.lookup runningExample.current.CauseOfDeath c) ∧
      qp'.allMatches = runningExample.allMatches ∧
      qp'.completed = runningExample.completed ∧
      qp'.gameRunning = true :=
  ⟨reachable_runningExample, rfl, by decide,
    kill_counts runningExample
      "11:47 Kill: 4 2 7: Zeh killed Dono da Bola by MOD_ROCKET_SPLASH"
      "11:47 Kill: 4 2 7: Zeh killed Dono da Bola by MOD_ROCKET_SPLASH" "11:47" "Zeh"
      "Dono da Bola" "MOD_ROCKET_SPLASH" reachable_runningExample rfl (by decide)⟩

/-- C11: in a reachable state with a match running, the user info handler, on a line from
which its pattern extracts the name `p`, returns a state; when `p` was no key of the current
`PlayerScores`, the new state has `p` with score 0 there and everything else as before (the
other scores, `CauseOfDeath`, `TotalKills`, the completed records, the running flag); when `p`
was a key already, the new state is the old one, whatever the score of `p`.  The handler on
the same line once more returns the same state. -/
theorem userinfo_registers (qp : QuakeLogParser) (line whole p : String)
    (hr : Reachable qp) (hrun : qp.gameRunning = true)
    (hm : FindStringSubmatch clientRe line = [whole, p]) :
    ∃ qp', HandleEvent .clientUserinfoChangedEventHandler qp line = some qp' ∧
      (GoMap.lookup qp.current.PlayerScores p = none →
        GoMap.lookup qp'.current.PlayerScores p = some 0 ∧
        (∀ q, q ≠ p →
          GoMap.lookup qp'.current.PlayerScores q = GoMap.lookup qp.current.PlayerScores q) ∧
        qp'.current.CauseOfDeath = qp.current.CauseOfDeath ∧
        qp'.current.TotalKills = qp.current.TotalKills ∧
        qp'.allMatches = qp.allMatches ∧
        qp'.completed = qp.completed ∧
        qp'.gameRunning = true) ∧
      (∀ v, GoMap.lookup qp.current.PlayerScores p = some v → qp' = qp) ∧
      HandleEvent .clientUserinfoChangedEventHandler qp' line = some qp' := by
  have ho : 0 < qp.opened := by rw [opened_of_running hrun]; omega
  have hi := inv_of_reachable hr
  have hlen : (FindStringSubmatch clientRe line).length > 1 := by rw [hm]; simp
  have hname : (FindStringSubmatch clientRe line).getD 1 "" = p := by rw [hm]; rfl
  obtain ⟨qp', e, hg, ha, hc, _, hcur, hfr⟩ := client_opened hi ho hlen
  rw [hname] at hcur
  refine ⟨qp', e, ?_, ?_, ?_⟩
  · intro hnone
    have hps : qp'.current.PlayerScores = GoMap.set qp.current.PlayerScores p 0 := by
      rw [hcur]
      simp only [MatchData.join, hnone]
    refine ⟨by rw [hps, lookup_set_self], ?_, by rw [hcur]; rfl, by rw [hcur]; rfl, ha, ?_,
      by rw [hg, hrun]⟩
    · intro q hq
      rw [hps, lookup_set_other _ _ _ _ hq]
    · unfold QuakeLogParser.completed
      rw [ha]
      apply map_data_congr hi.done
      intro a hlt
      apply hfr
      rw [opened_of_running hrun]
      omega
  · intro v hv
    have hk : clientUserinfoChangedEventHandler.HandleEvent qp line = some qp :=
      client_known (by rw [hname]; exact hv)
    have e' : clientUserinfoChangedEventHandler.HandleEvent qp line = some qp' := e
    rw [hk] at e'
    exact (Option.some.inj e').symm
  · have hl : ∃ v, GoMap.lookup qp'.current.PlayerScores p = some v := by
      rw [hcur]
      simp only [MatchData.join]
      rcases hq : GoMap.lookup qp.current.PlayerScores p with _ | v
      · exact ⟨0, lookup_set_self _ _ _⟩
      · exact ⟨v, hq⟩
    obtain ⟨v, hv⟩ := hl
    exact client_known (by rw [hname]; exact hv)

theorem userinfo_registers_witness :
    Reachable scoredExample ∧ scoredExample.gameRunning = true ∧
    FindStringSubmatch clientRe "11:47 ClientUserinfoChanged: 2 n\\Dono da Bola\\t\\0" =
      ["11:47 ClientUserinfoChanged: 2 n\\Dono da Bola\\", "Dono da Bola"] ∧
    ∃ qp', HandleEvent .clientUserinfoChangedEventHandler scoredExample
        "11:47 ClientUserinfoChanged: 2 n\\Dono da Bola\\t\\0" = some qp' ∧
      (GoMap.lookup scoredExample.current.PlayerScores "Dono da Bola" = none →
        GoMap.lookup qp'.current.PlayerScores "Dono da Bola" = some 0 ∧
        (∀ q, q ≠ "Dono da Bola" →
          GoMap.lookup qp'.current.PlayerScores q =
            GoMap.lookup scoredExample.current.PlayerScores q) ∧
        qp'.current.CauseOfDeath = scoredExample.current.CauseOfDeath ∧
        qp'.current.TotalKills = scoredExample.current.TotalKills ∧
        qp'.allMatches = scoredExample.allMatches ∧
        qp'.completed = scoredExample.completed ∧
        qp'.gameRunning = true) ∧
      (∀ v, GoMap.lookup scoredExample.current.PlayerScores "Dono da Bola" = some v →
        qp' = scoredExample) ∧
      HandleEvent .clientUserinfoChangedEventHandler qp'
        "11:47 ClientUserinfoChanged: 2 n\\Dono da Bola\\t\\0" = some qp' :=
  ⟨reachable_scoredExample, rfl, by decide,
    userinfo_registers scoredExample "11:47 ClientUserinfoChanged: 2 n\\Dono da Bola\\t\\0"
      "11:47 ClientUserinfoChanged: 2 n\\Dono da Bola\\" "Dono da Bola"
      reachable_scoredExample rfl (by decide)⟩

set_option maxRecDepth 100000 in
/-- C12, as the code behaves: Zeh is named by a user info line of the match and is the
killer in none of its kill events, but is killed by `<world>`; the record has Zeh with
score -1, not 0. -/
theorem named_player_killed_by_world :
    parseFresh ["0:00 InitGame:", "1:06 ClientUserinfoChanged: 4 n\\Zeh\\t\\0",
        "1:26 Kill: 1022 4 22: <world> killed Zeh by MOD_TRIGGER_HURT"] =
      some [{ TotalKills := 1, PlayerScores := [("Zeh", -1)],
              CauseOfDeath := [("MOD_TRIGGER_HURT", 1)] }] ∧
    FindStringSubmatch clientRe "1:06 ClientUserinfoChanged: 4 n\\Zeh\\t\\0" =
      ["1:06 ClientUserinfoChanged: 4 n\\Zeh\\", "Zeh"] ∧
    FindStringSubmatch killRe "1:26 Kill: 1022 4 22: <world> killed Zeh by MOD_TRIGGER_HURT" =
      ["1:26 Kill: 1022 4 22: <world> killed Zeh by MOD_TRIGGER_HURT", "1:26", "<world>",
        "Zeh", "MOD_TRIGGER_HURT"] ∧
    "<world>" ≠ "Zeh" ∧
    GoMap.lookup [("Zeh", -1)] "Zeh" ≠ some 0 := by
  decide

/-- C12, amended: when a fresh parser returns records for the lines, consider the `i`-th
record and the lines of its match, from its `InitGame` line up to the next `InitGame` line.
A player `p` who is named by a user info line of the match that comes before any
`ShutdownGame` line, and whose score no kill line of the match changes (`p` is the killer in
none and the victim of `<world>` in none), is a key of `PlayerScores` of the record, with
value 0. -/
theorem named_player_scores_zero (lines : List String) (res : List MatchData) (i : Nat)
    (seg : List String) (r : MatchData) (p l0 : String) (body tail : List String)
    (h : parseFresh lines = some res)
    (hseg : (matchLines lines)[i]? = some seg) (hr : res[i]? = some r)
    (hsplit : seg = l0 :: (body ++ tail))
    (_hrunning : ∀ l ∈ body, classify l ≠ some .shutdownGameEventHandler)
    (hnamed : ∃ l ∈ body, NamesPlayer p l)
    (hkills : ∀ l ∈ body ++ tail, classify l = some .killEventHandler → SparesPlayer p l) :
    GoMap.lookup r.PlayerScores p = some 0 := by
  rw [parseFresh_eq_viewSteps] at h
  have hall := viewSteps_matchLines lines (false, []) res h
  simp only [List.length_nil, List.drop_zero] at hall
  have hi : ((matchLines lines).map parseFresh)[i]? = some (some [r]) := by
    rw [hall, List.getElem?_map, hr]
    rfl
  rw [List.getElem?_map, hseg, Option.map_some', Option.some.injEq] at hi
  obtain ⟨l0', rest', hs, hinit, hrest⟩ := matchLines_mem (List.getElem?_mem hseg)
  rw [hsplit, List.cons.injEq] at hs
  obtain ⟨rfl, rfl⟩ := hs
  obtain ⟨b', x', e, _, _, hz⟩ := viewSteps_score_zero p (body ++ tail) true
    { TotalKills := 0, PlayerScores := [], CauseOfDeath := [] } hrest hkills (Or.inl rfl)
  rw [hsplit, parseFresh_eq_viewSteps] at hi
  simp only [viewSteps, viewStep_initGame hinit, List.nil_append, e, Option.map_some',
    Option.some.injEq, List.cons.injEq, and_true] at hi
  rw [← hi]
  obtain ⟨l, hl, hn⟩ := hnamed
  exact hz ⟨l, List.mem_append_left _ hl, hn⟩

set_option maxRecDepth 100000 in
theorem named_player_scores_zero_witness :
    parseFresh ["0:00 InitGame:", "1:06 ClientUserinfoChanged: 4 n\\Zeh\\t\\0",
        "1:08 Kill: 3 2 6: Isgalamido killed Mocinha by MOD_ROCKET", "1:47 ShutdownGame:"] =
      some [{ TotalKills := 1, PlayerScores := [("Zeh", 0), ("Isgalamido", 1)],
              CauseOfDeath := [("MOD_ROCKET", 1)] }] ∧
    (matchLines ["0:00 InitGame:", "1:06 ClientUserinfoChanged: 4 n\\Zeh\\t\\0",
        "1:08 Kill: 3 2 6: Isgalamido killed Mocinha by MOD_ROCKET", "1:47 ShutdownGame:"])[0]? =
      some ("0:00 InitGame:" :: (["1:06 ClientUserinfoChanged: 4 n\\Zeh\\t\\0",
        "1:08 Kill: 3 2 6: Isgalamido killed Mocinha by MOD_ROCKET"] ++
        ["1:47 ShutdownGame:"])) ∧
    (∀ l ∈ ["1:06 ClientUserinfoChanged: 4 n\\Zeh\\t\\0",
        "1:08 Kill: 3 2 6: Isgalamido killed Mocinha by MOD_ROCKET"],
      classify l ≠ some .shutdownGameEventHandler) ∧
    (∃ l ∈ ["1:06 ClientUserinfoChanged: 4 n\\Zeh\\t\\0",
        "1:08 Kill: 3 2 6: Isgalamido killed Mocinha by MOD_ROCKET"], NamesPlayer "Zeh" l) ∧
    (∀ l ∈ ["1:06 ClientUserinfoChanged: 4 n\\Zeh\\t\\0",
        "1:08 Kill: 3 2 6: Isgalamido killed Mocinha by MOD_ROCKET"] ++ ["1:47 ShutdownGame:"],
      classify l = some .killEventHandler → SparesPlayer "Zeh" l) ∧
    GoMap.lookup [("Zeh", 0), ("Isgalamido", 1)] "Zeh" = some 0 :=
  have hrunning : ∀ l ∈ ["1:06 ClientUserinfoChanged: 4 n\\Zeh\\t\\0",
      "1:08 Kill: 3 2 6: Isgalamido killed Mocinha by MOD_ROCKET"],
      classify l ≠ some .shutdownGameEventHandler := by
    intro l hl
    simp only [List.mem_cons, List.mem_singleton, List.not_mem_nil, or_false] at hl
    rcases hl with rfl | rfl <;> decide
  have hnamed : ∃ l ∈ ["1:06 ClientUserinfoChanged: 4 n\\Zeh\\t\\0",
      "1:08 Kill: 3 2 6: Isgalamido killed Mocinha by MOD_ROCKET"], NamesPlayer "Zeh" l :=
    ⟨"1:06 ClientUserinfoChanged: 4 n\\Zeh\\t\\0", List.mem_cons_self _ _, by decide,
      "1:06 ClientUserinfoChanged: 4 n\\Zeh\\", by decide⟩
  have hkills : ∀ l ∈ ["1:06 ClientUserinfoChanged: 4 n\\Zeh\\t\\0",
      "1:08 Kill: 3 2 6: Isgalamido killed Mocinha by MOD_ROCKET"] ++ ["1:47 ShutdownGame:"],
      classify l = some .killEventHandler → SparesPlayer "Zeh" l := by
    intro l hl hc
    simp only [List.cons_append, List.nil_append, List.mem_cons, List.mem_singleton,
      List.not_mem_nil, or_false] at hl
    rcases hl with rfl | rfl | rfl
    · exact absurd hc (by decide)
    · intro whole ts killer victim cause e
      have hv : FindStringSubmatch killRe
          "1:08 Kill: 3 2 6: Isgalamido killed Mocinha by MOD_ROCKET" =
          ["1:08 Kill: 3 2 6: Isgalamido killed Mocinha by MOD_ROCKET", "1:08", "Isgalamido",
            "Mocinha", "MOD_ROCKET"] := by decide
      rw [hv] at e
      simp only [List.cons.injEq, and_true] at e
      obtain ⟨_, _, rfl, rfl, _⟩ := e
      exact ⟨by decide, by decide⟩
    · exact absurd hc (by decide)
  ⟨by decide, by decide, hrunning, hnamed, hkills,
    named_player_scores_zero _ _ 0 _ _ "Zeh" "0:00 InitGame:" _ _
      (by decide : parseFresh ["0:00 InitGame:", "1:06 ClientUserinfoChanged: 4 n\\Zeh\\t\\0",
        "1:08 Kill: 3 2 6: Isgalamido killed Mocinha by MOD_ROCKET", "1:47 ShutdownGame:"] =
      some [{ TotalKills := 1, PlayerScores := [("Zeh", 0), ("Isgalamido", 1)],
              CauseOfDeath := [("MOD_ROCKET", 1)] }])
      (by decide) rfl rfl hrunning hnamed hkills⟩

set_option maxRecDepth 100000 in
/-- C13, as the code behaves: after `InitGame`, the kill of Dono da Bola by Zeh and
`ShutdownGame`, the one record returned has `PlayerScores` `{Zeh: 1}` only; the victim is no
key of the map. -/
theorem victim_is_not_registered :
    parseFresh ["11:47 InitGame:",
        "11:47 Kill: 4 2 7: Zeh killed Dono da Bola by MOD_ROCKET_SPLASH",
        "11:47 ShutdownGame:"] =
      some [{ TotalKills := 1, PlayerScores := [("Zeh", 1)],
              CauseOfDeath := [("MOD_ROCKET_SPLASH", 1)] }] ∧
    (parseFresh ["11:47 InitGame:",
        "11:47 Kill: 4 2 7: Zeh killed Dono da Bola by MOD_ROCKET_SPLASH",
        "11:47 ShutdownGame:"]).map
        (fun rs => rs.map fun r => GoMap.lookup r.PlayerScores "Dono da Bola") =
      some [none] ∧
    GoMap.lookup [("Zeh", 1)] "Dono da Bola" ≠ some 0 := by
  decide

/-- C13, amended: for an `InitGame` line, a `Kill` line from which the kill pattern extracts
killer `K`, victim `V` and cause `C`, with `K` neither `V` nor `<world>`, and a `ShutdownGame`
line, a fresh parser returns exactly one record, with `TotalKills` 1, `CauseOfDeath` exactly
`{C: 1}` and `PlayerScores` exactly `{K: 1}`: the victim is no key, and reading its score
gives the zero value 0. -/
theorem one_kill_match (l1 l2 l3 whole ts K V C : String)
    (h1 : classify l1 = some .initGameEventHandler)
    (h2 : classify l2 = some .killEventHandler)
    (hm : FindStringSubmatch killRe l2 = [whole, ts, K, V, C])
    (h3 : classify l3 = some .shutdownGameEventHandler)
    (hkv : K ≠ V) (hkw : K ≠ WORLD_ENTITY) :
    parseFresh [l1, l2, l3] =
      some [{ TotalKills := 1, PlayerScores := [(K, 1)], CauseOfDeath := [(C, 1)] }] ∧
    GoMap.lookup [(K, 1)] V = none ∧ GoMap.get [(K, 1)] V = 0 := by
  have hl : GoMap.lookup [(K, 1)] V = none := by simp [GoMap.lookup, hkv]
  refine ⟨?_, hl, by simp [GoMap.get, hl]⟩
  rw [parseFresh_eq_viewSteps]
  simp [viewSteps, viewStep, h1, h2, h3, hm, updateLast, MatchData.kill, scoredPlayer,
    scoredDelta, hkv, hkw, GoMap.set, GoMap.get, GoMap.lookup]

theorem one_kill_match_witness :
    classify "11:47 InitGame:" = some .initGameEventHandler ∧
    classify "11:47 Kill: 4 2 7: Zeh killed Dono da Bola by MOD_ROCKET_SPLASH" =
      some .killEventHandler ∧
    FindStringSubmatch killRe "11:47 Kill: 4 2 7: Zeh killed Dono da Bola by MOD_ROCKET_SPLASH" =
      ["11:47 Kill: 4 2 7: Zeh killed Dono da Bola by MOD_ROCKET_SPLASH", "11:47", "Zeh",
        "Dono da Bola", "MOD_ROCKET_SPLASH"] ∧
    classify "11:47 ShutdownGame:" = some .shutdownGameEventHandler ∧
    "Zeh" ≠ "Dono da Bola" ∧ "Zeh" ≠ WORLD_ENTITY ∧
    parseFresh ["11:47 InitGame:",
        "11:47 Kill: 4 2 7: Zeh killed Dono da Bola by MOD_ROCKET_SPLASH",
        "11:47 ShutdownGame:"] =
      some [{ TotalKills := 1, PlayerScores := [("Zeh", 1)],
              CauseOfDeath := [("MOD_ROCKET_SPLASH", 1)] }] ∧
    GoMap.lookup [("Zeh", 1)] "Dono da Bola" = none ∧
    GoMap.get [("Zeh", 1)] "Dono da Bola" = 0 :=
  ⟨by decide, by decide, by decide, by decide, by decide, by decide,
    one_kill_match "11:47 InitGame:"
      "11:47 Kill: 4 2 7: Zeh killed Dono da Bola by MOD_ROCKET_SPLASH" "11:47 ShutdownGame:"
      "11:47 Kill: 4 2 7: Zeh killed Dono da Bola by MOD_ROCKET_SPLASH" "11:47" "Zeh"
      "Dono da Bola" "MOD_ROCKET_SPLASH" (by decide) (by decide) (by decide) (by decide)
      (by decide) (by decide)⟩

/-- C14: a line that the classifier pattern does not match, or whose tag has no handler, or
that is handed to the kill or the user info handler and fails the pattern of that handler,
leaves every parser state as it is; so `ParseLogContent`, on any parser, gives the same
outcome with such a line put in or taken out anywhere in the input, and so do the records
read from a fresh parser. -/
theorem ignored_line_changes_nothing (line : String)
    (h : (FindStringSubmatch eventRe line).length ≤ 1 ∨
      eventHandlers ((FindStringSubmatch eventRe line).getD 1 "") = none ∨
      (classify line = some .killEventHandler ∧
        ¬ (FindStringSubmatch killRe line).length > 4) ∨
      (classify line = some .clientUserinfoChangedEventHandler ∧
        ¬ (FindStringSubmatch clientRe line).length > 1)) :
    (∀ qp, processLine qp line = some qp) ∧
    (∀ qp a b, ParseLogContent qp (a ++ line :: b) = ParseLogContent qp (a ++ b)) ∧
    (∀ a b, parseFresh (a ++ line :: b) = parseFresh (a ++ b)) := by
  have h1 : ∀ qp, processLine qp line = some qp := by
    intro qp
    rcases h with h | h | ⟨hc, hm⟩ | ⟨hc, hm⟩
    · exact processLine_of_classify_none (by simp [classify, h])
    · apply processLine_of_classify_none
      unfold classify
      dsimp only
      split
      · rfl
      · exact h
    · simp only [processLine, hc, HandleEvent]
      exact kill_unmatched hm
    · simp only [processLine, hc, HandleEvent]
      exact client_unmatched hm
  have h2 : ∀ qp a b, processLines qp (a ++ line :: b) = processLines qp (a ++ b) := by
    intro qp a b
    rw [processLines_append, processLines_append]
    rcases processLines qp a with _ | q
    · rfl
    · simp only [Option.some_bind, processLines, h1 q]
  refine ⟨h1, ?_, ?_⟩
  · intro qp a b
    simp only [ParseLogContent, h2]
  · intro a b
    simp only [parseFresh, ParseLogContent, h2]

theorem ignored_line_changes_nothing_witness :
    ((FindStringSubmatch eventRe "20:40 Item: 2 weapon_rocketlauncher").length ≤ 1 ∨
      eventHandlers
        ((FindStringSubmatch eventRe "20:40 Item: 2 weapon_rocketlauncher").getD 1 "") = none ∨
      (classify "20:40 Item: 2 weapon_rocketlauncher" = some .killEventHandler ∧
        ¬ (FindStringSubmatch killRe "20:40 Item: 2 weapon_rocketlauncher").length > 4) ∨
      (classify "20:40 Item: 2 weapon_rocketlauncher" =
          some .clientUserinfoChangedEventHandler ∧
        ¬ (FindStringSubmatch clientRe "20:40 Item: 2 weapon_rocketlauncher").length > 1)) ∧
    (∀ qp, processLine qp "20:40 Item: 2 weapon_rocketlauncher" = some qp) ∧
    (∀ qp a b, ParseLogContent qp (a ++ "20:40 Item: 2 weapon_rocketlauncher" :: b) =
      ParseLogContent qp (a ++ b)) ∧
    (∀ a b, parseFresh (a ++ "20:40 Item: 2 weapon_rocketlauncher" :: b) =
      parseFresh (a ++ b)) :=
  ⟨Or.inr (Or.inl (by decide)),
    ignored_line_changes_nothing "20:40 Item: 2 weapon_rocketlauncher"
      (Or.inr (Or.inl (by decide)))⟩

/-- C15: the `ShutdownGame` handler leaves a state with no match running exactly as it is;
in a state with a match running it appends the current record, with its contents, to the
completed records and no match is running after it.  Two `ShutdownGame` lines in a row give
the same state as one. -/
theorem shutdownGame_once (qp : QuakeLogParser) (line line2 : String) :
    (qp.gameRunning = false → HandleEvent .shutdownGameEventHandler qp line = some qp) ∧
    (qp.gameRunning = true →
      ∃ qp', HandleEvent .shutdownGameEventHandler qp line = some qp' ∧
        qp'.gameRunning = false ∧
        qp'.allMatches = qp.allMatches ++ [qp.currentMatch] ∧
        qp'.completed = qp.completed ++ [qp.current]) ∧
    (HandleEvent .shutdownGameEventHandler qp line).bind
        (fun qp' => HandleEvent .shutdownGameEventHandler qp' line2) =
      HandleEvent .shutdownGameEventHandler qp line := by
  refine ⟨fun h => shutdownGame_idle line h, ?_, ?_⟩
  · intro h
    refine ⟨_, shutdownGame_running line h, rfl, rfl, ?_⟩
    simp [QuakeLogParser.completed, QuakeLogParser.current]
  · cases h : qp.gameRunning
    · simp only [HandleEvent, shutdownGame_idle line h, Option.some_bind]
      exact shutdownGame_idle line2 h
    · simp only [HandleEvent, shutdownGame_running line h, Option.some_bind]
      exact shutdownGame_idle line2 rfl

theorem shutdownGame_once_witness :
    (scoredExample.gameRunning = false →
      HandleEvent .shutdownGameEventHandler scoredExample "11:47 ShutdownGame:" =
        some scoredExample) ∧
    (scoredExample.gameRunning = true →
      ∃ qp', HandleEvent .shutdownGameEventHandler scoredExample "11:47 ShutdownGame:" =
          some qp' ∧
        qp'.gameRunning = false ∧
        qp'.allMatches = scoredExample.allMatches ++ [scoredExample.currentMatch] ∧
        qp'.completed = scoredExample.completed ++ [scoredExample.current]) ∧
    (HandleEvent .shutdownGameEventHandler scoredExample "11:47 ShutdownGame:").bind
        (fun qp' => HandleEvent .shutdownGameEventHandler qp' "11:48 ShutdownGame:") =
      HandleEvent .shutdownGameEventHandler scoredExample "11:47 ShutdownGame:" :=
  shutdownGame_once scoredExample "11:47 ShutdownGame:" "11:48 ShutdownGame:"

/-- C16, as the code behaves: `ParseLogContent` does not start from an empty list of
completed matches.  A parser that has parsed `["0:00 InitGame:"]` returns two records for
`["0:00 InitGame:"]`, a fresh parser returns one. -/
theorem second_call_keeps_matches :
    (parseCalls NewQuakeLogParser [["0:00 InitGame:"]]).bind
        (fun qp => parseOn qp ["0:00 InitGame:"]) =
      some [{ TotalKills := 0, PlayerScores := [], CauseOfDeath := [] },
            { TotalKills := 0, PlayerScores := [], CauseOfDeath := [] }] ∧
    parseFresh ["0:00 InitGame:"] =
      some [{ TotalKills := 0, PlayerScores := [], CauseOfDeath := [] }] ∧
    (parseCalls NewQuakeLogParser [["0:00 InitGame:"]]).bind
        (fun qp => parseOn qp ["0:00 InitGame:"]) ≠ parseFresh ["0:00 InitGame:"] := by
  decide

/-- C16, amended: a parser fresh from `NewQuakeLogParser` has no match running and no
completed match.  The completed matches stay in the parser from call to call: when a parser
has been through any calls of `ParseLogContent` and a fresh parser returns the records `S`
for `lines`, then `ParseLogContent` on that parser returns, for `lines`, the records it holds
already, unchanged, followed by `S`. -/
theorem later_call_appends (calls : List (List String)) (qp : QuakeLogParser)
    (lines : List String) (S : List MatchData)
    (hc : parseCalls NewQuakeLogParser calls = some qp) (hS : parseFresh lines = some S) :
    NewQuakeLogParser.gameRunning = false ∧ NewQuakeLogParser.completed = [] ∧
    parseOn NewQuakeLogParser lines = some S ∧
    parseOn qp lines = some (qp.completed ++ S) := by
  obtain ⟨hi, hr⟩ := parseCalls_inv_idle calls NewQuakeLogParser qp inv_fresh rfl hc
  refine ⟨rfl, rfl, hS, ?_⟩
  rw [parseFresh_eq_viewSteps] at hS
  obtain ⟨s, hs, hS2⟩ := Option.map_eq_some'.mp hS
  have hv : qp.view = (false, qp.completed) := by
    simp only [QuakeLogParser.view, hr, endOfInput_idle hr]
  rw [parseOn_eq_viewSteps qp lines hi, hv, viewSteps_prepend_nil lines false qp.completed s hs,
    Option.map_some', hS2]

set_option maxRecDepth 100000 in
theorem later_call_appends_witness :
    parseCalls NewQuakeLogParser [["0:00 InitGame:", "0:01 ShutdownGame:"]] =
      some idleExample ∧
    parseFresh ["11:47 InitGame:",
        "11:47 Kill: 4 2 7: Zeh killed Dono da Bola by MOD_ROCKET_SPLASH"] =
      some [{ TotalKills := 1, PlayerScores := [("Zeh", 1)],
              CauseOfDeath := [("MOD_ROCKET_SPLASH", 1)] }] ∧
    NewQuakeLogParser.gameRunning = false ∧ NewQuakeLogParser.completed = [] ∧
    parseOn NewQuakeLogParser ["11:47 InitGame:",
        "11:47 Kill: 4 2 7: Zeh killed Dono da Bola by MOD_ROCKET_SPLASH"] =
      some [{ TotalKills := 1, PlayerScores := [("Zeh", 1)],
              CauseOfDeath := [("MOD_ROCKET_SPLASH", 1)] }] ∧
    parseOn idleExample ["11:47 InitGame:",
        "11:47 Kill: 4 2 7: Zeh killed Dono da Bola by MOD_ROCKET_SPLASH"] =
      some (idleExample.completed ++
        [{ TotalKills := 1, PlayerScores := [("Zeh", 1)],
           CauseOfDeath := [("MOD_ROCKET_SPLASH", 1)] }]) :=
  ⟨by decide, by decide,
    later_call_appends [["0:00 InitGame:", "0:01 ShutdownGame:"]] idleExample _ _
      (by decide) (by decide)⟩

/-- C17: for a map `m` (each key once), whatever the order in which `range` visits the map
and however `sort.Slice` orders equal values, `SortMapByValueDescending` returns a list that
holds the pair `(k, m[k])` exactly once for every key `k` of `m` and no other pair, so it is
as long as `m` is large, with the values never increasing from first to last; for the empty
map it returns the empty list. -/
theorem sortMapByValueDescending_spec (rt : GoRuntime) (m : GoMap)
    (hm : (m.map Prod.fst).Nodup) :
    (∀ k v, GoMap.lookup m k = some v →
      (SortMapByValueDescending rt m).count { Key := k, Value := v } = 1) ∧
    (∀ q ∈ SortMapByValueDescending rt m, GoMap.lookup m q.Key = some q.Value) ∧
    (SortMapByValueDescending rt m).length = m.length ∧
    (SortMapByValueDescending rt m).Pairwise (fun a b => b.Value ≤ a.Value) ∧
    SortMapByValueDescending rt [] = [] := by
  have hp := sortMap_perm rt m
  have hinj : Function.Injective fun q : Pair => (q.Key, q.Value) := by
    intro a b h
    cases a
    cases b
    simp only [Prod.mk.injEq] at h
    rw [h.1, h.2]
  refine ⟨?_, ?_, ?_, ?_, ?_⟩
  · intro k v hl
    have hc := hp.count_eq (k, v)
    rw [List.count_eq_one_of_mem (nodup_of_nodup_keys hm) (mem_of_lookup hl)] at hc
    rw [← hc]
    exact (List.count_map_of_injective _ _ hinj { Key := k, Value := v }).symm
  · intro q hq
    apply lookup_of_mem hm
    exact hp.subset (List.mem_map_of_mem (fun q : Pair => (q.Key, q.Value)) hq)
  · have := hp.length_eq
    simpa using this
  · have hs := rt.sortSlice_sorted (fun a b => decide (a.Value > b.Value))
      ((rt.rangeMap m).map fun kv => ({ Key := kv.1, Value := kv.2 } : Pair))
      swo_byValueDescending
    unfold SortMapByValueDescending
    dsimp only
    refine hs.imp ?_
    intro a b hab
    simpa using hab
  · have := (sortMap_perm rt []).length_eq
    simp only [List.length_map, List.length_nil] at this
    exact List.length_eq_zero.mp this

theorem sortMapByValueDescending_spec_witness :
    (([("Zeh", -2), ("Isgalamido", 1), ("Mocinha", 0), ("Dono da Bola", -1)] :
      GoMap).map Prod.fst).Nodup ∧
    SortMapByValueDescending insertionRuntime
        [("Zeh", -2), ("Isgalamido", 1), ("Mocinha", 0), ("Dono da Bola", -1)] =
      [{ Key := "Isgalamido", Value := 1 }, { Key := "Mocinha", Value := 0 },
        { Key := "Dono da Bola", Value := -1 }, { Key := "Zeh", Value := -2 }] ∧
    (∀ k v, GoMap.lookup
        [("Zeh", -2), ("Isgalamido", 1), ("Mocinha", 0), ("Dono da Bola", -1)] k = some v →
      (SortMapByValueDescending insertionRuntime
        [("Zeh", -2), ("Isgalamido", 1), ("Mocinha", 0), ("Dono da Bola", -1)]).count
        { Key := k, Value := v } = 1) ∧
    (∀ q ∈ SortMapByValueDescending insertionRuntime
        [("Zeh", -2), ("Isgalamido", 1), ("Mocinha", 0), ("Dono da Bola", -1)],
      GoMap.lookup [("Zeh", -2), ("Isgalamido", 1), ("Mocinha", 0), ("Dono da Bola", -1)]
        q.Key = some q.Value) ∧
    (SortMapByValueDescending insertionRuntime
        [("Zeh", -2), ("Isgalamido", 1), ("Mocinha", 0), ("Dono da Bola", -1)]).length =
      ([("Zeh", -2), ("Isgalamido", 1), ("Mocinha", 0), ("Dono da Bola", -1)] :
        GoMap).length ∧
    (SortMapByValueDescending insertionRuntime
        [("Zeh", -2), ("Isgalamido", 1), ("Mocinha", 0), ("Dono da Bola", -1)]).Pairwise
      (fun a b => b.Value ≤ a.Value) ∧
    SortMapByValueDescending insertionRuntime [] = [] :=
  ⟨by decide, by decide,
    sortMapByValueDescending_spec insertionRuntime
      [("Zeh", -2), ("Isgalamido", 1), ("Mocinha", 0), ("Dono da Bola", -1)] (by decide)⟩

/-- C18: when a fresh parser returns the records `RA` for the lines `A`, and `B` starts with a
line handed to the `InitGame` handler, then a fresh parser returns records `RB` for `B`, and
for `A` followed by `B` it returns `RA` followed by `RB`: no line of `B` changes a record of
a match opened in `A`. -/
theorem parse_append_at_initGame (A : List String) (line : String) (rest : List String)
    (RA : List MatchData) (hA : parseFresh A = some RA)
    (hl : classify line = some .initGameEventHandler) :
    ∃ RB, parseFresh (line :: rest) = some RB ∧
      parseFresh (A ++ line :: rest) = some (RA ++ RB) := by
  rw [parseFresh_eq_viewSteps] at hA
  obtain ⟨sA, hsA, hRA⟩ := Option.map_eq_some'.mp hA
  obtain ⟨RB, h1, h2⟩ := viewSteps_from_initGame ((isInitGame_iff line).mpr hl) rest sA.1 sA.2
  refine ⟨RB, by rw [parseFresh_eq_viewSteps]; exact h1, ?_⟩
  rw [parseFresh_eq_viewSteps, viewSteps_append, hsA, Option.some_bind]
  rw [← hRA]
  exact h2

set_option maxRecDepth 100000 in
theorem parse_append_at_initGame_witness :
    parseFresh ["11:47 InitGame:",
        "11:47 Kill: 4 2 7: Zeh killed Dono da Bola by MOD_ROCKET_SPLASH"] =
      some [{ TotalKills := 1, PlayerScores := [("Zeh", 1)],
              CauseOfDeath := [("MOD_ROCKET_SPLASH", 1)] }] ∧
    classify "12:00 InitGame:" = some .initGameEventHandler ∧
    ∃ RB, parseFresh ("12:00 InitGame:" ::
        ["12:01 Kill: 1022 2 22: <world> killed Dono da Bola by MOD_TRIGGER_HURT"]) =
        some RB ∧
      parseFresh (["11:47 InitGame:",
          "11:47 Kill: 4 2 7: Zeh killed Dono da Bola by MOD_ROCKET_SPLASH"] ++
          "12:00 InitGame:" ::
          ["12:01 Kill: 1022 2 22: <world> killed Dono da Bola by MOD_TRIGGER_HURT"]) =
        some ([{ TotalKills := 1, PlayerScores := [("Zeh", 1)],
                 CauseOfDeath := [("MOD_ROCKET_SPLASH", 1)] }] ++ RB) :=
  ⟨by decide, by decide,
    parse_append_at_initGame _ "12:00 InitGame:" _ _ (by decide) (by decide)⟩

/-- C19: on a line `<m>:<s> Kill: <a> <b> <c>: K killed V by C`, where `m`, `s`, `a`, `b`, `c`
are non-empty strings of digits, `K` and `V` are non-empty and have no newline, `V` does not
contain `killed ` and `C` is non-empty and has no white space, the kill pattern matches the
whole line and extracts the time `<m>:<s>`, the killer `K`, the victim `V` and the cause `C`. -/
theorem kill_line_extraction (m s a b c K V C : String)
    (hm : m ≠ "") (hmd : ∀ x ∈ m.toList, isDigit x = true)
    (hs : s ≠ "") (hsd : ∀ x ∈ s.toList, isDigit x = true)
    (ha : a ≠ "") (had : ∀ x ∈ a.toList, isDigit x = true)
    (hb : b ≠ "") (hbd : ∀ x ∈ b.toList, isDigit x = true)
    (hc : c ≠ "") (hcd : ∀ x ∈ c.toList, isDigit x = true)
    (hK : K ≠ "") (hKn : ∀ x ∈ K.toList, x ≠ '\n')
    (hV : V ≠ "") (hVn : ∀ x ∈ V.toList, x ≠ '\n')
    (hVk : ¬ "killed ".toList <:+: V.toList)
    (hC : C ≠ "") (hCs : ∀ x ∈ C.toList, isSpace x = false) :
    FindStringSubmatch killRe
        (m ++ ":" ++ s ++ " Kill: " ++ a ++ " " ++ b ++ " " ++ c ++ ": " ++ K ++ " killed " ++
          V ++ " by " ++ C) =
      [m ++ ":" ++ s ++ " Kill: " ++ a ++ " " ++ b ++ " " ++ c ++ ": " ++ K ++ " killed " ++
          V ++ " by " ++ C, m ++ ":" ++ s, K, V, C] := by
  have h := killRe_first m.toList s.toList a.toList b.toList c.toList K.toList V.toList
    C.toList (toList_ne_nil hm) hmd (toList_ne_nil hs) hsd (toList_ne_nil ha) had
    (toList_ne_nil hb) hbd (toList_ne_nil hc) hcd (toList_ne_nil hK) hKn (toList_ne_nil hV) hVn
    hVk (toList_ne_nil hC) hCs
  have hne : m.toList ++ (":".toList ++ (s.toList ++ (" Kill: ".toList ++ (a.toList ++ (" ".toList
    ++ (b.toList ++ (" ".toList ++ (c.toList ++ (": ".toList ++ (K.toList ++ (" killed ".toList ++
    (V.toList ++ (" by ".toList ++ (C.toList)))))))))))))) ≠ [] := by
    intro hn
    exact toList_ne_nil hm (List.append_eq_nil.mp hn).1
  have hf := find_of_first hne h
  unfold FindStringSubmatch
  have hl : (m ++ ":" ++ s ++ " Kill: " ++ a ++ " " ++ b ++ " " ++ c ++ ": " ++ K ++
      " killed " ++ V ++ " by " ++ C).toList =
      m.toList ++ (":".toList ++ (s.toList ++ (" Kill: ".toList ++ (a.toList ++ (" ".toList ++
        (b.toList ++ (" ".toList ++ (c.toList ++ (": ".toList ++ (K.toList ++ (" killed ".toList ++
        (V.toList ++ (" by ".toList ++ (C.toList)))))))))))))) := by
    simp only [String.toList, String.data_append, List.append_assoc]
  rw [hl, hf]
  simp only [consumed, List.length_nil, Nat.sub_zero, List.take_length, List.cons.injEq,
    and_true]
  refine ⟨?_, ?_, ?_, ?_, ?_⟩ <;> apply String.ext <;>
    simp only [String.toList, String.data_append, List.append_assoc]

theorem kill_line_extraction_witness :
    "11" ≠ "" ∧
    (∀ x ∈ ("11" : String).toList, isDigit x = true) ∧
    "47" ≠ "" ∧
    (∀ x ∈ ("47" : String).toList, isDigit x = true) ∧
    "4" ≠ "" ∧
    (∀ x ∈ ("4" : String).toList, isDigit x = true) ∧
    "2" ≠ "" ∧
    (∀ x ∈ ("2" : String).toList, isDigit x = true) ∧
    "7" ≠ "" ∧
    (∀ x ∈ ("7" : String).toList, isDigit x = true) ∧
    "Zeh" ≠ "" ∧
    (∀ x ∈ ("Zeh" : String).toList, x ≠ '\n') ∧
    "Dono da Bola" ≠ "" ∧
    (∀ x ∈ ("Dono da Bola" : String).toList, x ≠ '\n') ∧
    ¬ "killed ".toList <:+: ("Dono da Bola" : String).toList ∧
    "MOD_ROCKET_SPLASH" ≠ "" ∧
    (∀ x ∈ ("MOD_ROCKET_SPLASH" : String).toList, isSpace x = false) ∧
    FindStringSubmatch killRe
        ("11" ++ ":" ++ "47" ++ " Kill: " ++ "4" ++ " " ++ "2" ++ " " ++ "7" ++ ": " ++ "Zeh" ++
        " killed " ++ "Dono da Bola" ++ " by " ++ "MOD_ROCKET_SPLASH") =
      ["11" ++ ":" ++ "47" ++ " Kill: " ++ "4" ++ " " ++ "2" ++ " " ++ "7" ++ ": " ++ "Zeh" ++
        " killed " ++ "Dono da Bola" ++ " by " ++ "MOD_ROCKET_SPLASH",
        "11" ++ ":" ++ "47", "Zeh", "Dono da Bola", "MOD_ROCKET_SPLASH"] :=
  have hm : "11" ≠ "" := by decide
  have hmd : ∀ x ∈ ("11" : String).toList, isDigit x = true := by decide
  have hs : "47" ≠ "" := by decide
  have hsd : ∀ x ∈ ("47" : String).toList, isDigit x = true := by decide
  have ha : "4" ≠ "" := by decide
  have had : ∀ x ∈ ("4" : String).toList, isDigit x = true := by decide
  have hb : "2" ≠ "" := by decide
  have hbd : ∀ x ∈ ("2" : String).toList, isDigit x = true := by decide
  have hc : "7" ≠ "" := by decide
  have hcd : ∀ x ∈ ("7" : String).toList, isDigit x = true := by decide
  have hK : "Zeh" ≠ "" := by decide
  have hKn : ∀ x ∈ ("Zeh" : String).toList, x ≠ '\n' := by decide
  have hV : "Dono da Bola" ≠ "" := by decide
  have hVn : ∀ x ∈ ("Dono da Bola" : String).toList, x ≠ '\n' := by decide
  have hVk : ¬ "killed ".toList <:+: ("Dono da Bola" : String).toList := by decide
  have hC : "MOD_ROCKET_SPLASH" ≠ "" := by decide
  have hCs : ∀ x ∈ ("MOD_ROCKET_SPLASH" : String).toList, isSpace x = false := by decide
  ⟨hm, hmd, hs, hsd, ha, had, hb, hbd, hc,
    hcd, hK, hKn, hV, hVn, hVk, hC, hCs,
    kill_line_extraction "11" "47" "4" "2" "7" "Zeh" "Dono da Bola" "MOD_ROCKET_SPLASH"
      hm hmd hs hsd ha had hb hbd hc
      hcd hK hKn hV hVn hVk hC hCs⟩

/-- C20: when a fresh parser has handled lines among which one was handed to the `InitGame`
handler, the two maps of `currentMatch` are made (not nil), also after a `ShutdownGame`; and
when every line that the kill pattern or the user info pattern matches comes after some line
handed to the `InitGame` handler, `ParseLogContent` on a fresh parser returns: it does not
panic. -/
theorem parse_completes_after_initGame (lines : List String)
    (h : ∀ pre l post, lines = pre ++ l :: post →
      ((FindStringSubmatch killRe l).length > 4 ∨ (FindStringSubmatch clientRe l).length > 1) →
      ∃ l' ∈ pre, classify l' = some .initGameEventHandler) :
    (∃ res, parseFresh lines = some res) ∧
    ∀ pre l post qp, lines = pre ++ l :: post → classify l = some .initGameEventHandler →
      processLines NewQuakeLogParser (pre ++ l :: post) = some qp →
      qp.currentMatch.PlayerScores ≠ none ∧ qp.currentMatch.CauseOfDeath ≠ none := by
  constructor
  · obtain ⟨s, hs⟩ := viewSteps_guarded lines (by
      intro pre l post e hm
      obtain ⟨l', hl', hc⟩ := h pre l post e hm
      exact ⟨l', hl', (isInitGame_iff l').mpr hc⟩)
    exact ⟨s.2, by rw [parseFresh_eq_viewSteps, hs]; rfl⟩
  · intro pre l post qp _ hl e
    have ho := maps_made_after_initGame pre l post qp ((isInitGame_iff l).mpr hl) e
    have hi := inv_processLines inv_fresh e
    obtain ⟨hp, hc, _⟩ := inv_current_refs hi ho
    rw [hp, hc]
    exact ⟨by simp, by simp⟩

set_option maxRecDepth 100000 in
theorem parse_completes_after_initGame_witness :
    (∀ pre l post,
      ["0:00 InitGame:", "0:01 ShutdownGame:", "0:02 Kill: 1 2 3: a killed b by c"] =
        pre ++ l :: post →
      ((FindStringSubmatch killRe l).length > 4 ∨ (FindStringSubmatch clientRe l).length > 1) →
      ∃ l' ∈ pre, classify l' = some .initGameEventHandler) ∧
    (∃ res, parseFresh
      ["0:00 InitGame:", "0:01 ShutdownGame:", "0:02 Kill: 1 2 3: a killed b by c"] =
        some res) ∧
    ∀ pre l post qp,
      ["0:00 InitGame:", "0:01 ShutdownGame:", "0:02 Kill: 1 2 3: a killed b by c"] =
        pre ++ l :: post →
      classify l = some .initGameEventHandler →
      processLines NewQuakeLogParser (pre ++ l :: post) = some qp →
      qp.currentMatch.PlayerScores ≠ none ∧ qp.currentMatch.CauseOfDeath ≠ none :=
  have hyp : ∀ pre l post,
      ["0:00 InitGame:", "0:01 ShutdownGame:", "0:02 Kill: 1 2 3: a killed b by c"] =
        pre ++ l :: post →
      ((FindStringSubmatch killRe l).length > 4 ∨ (FindStringSubmatch clientRe l).length > 1) →
      ∃ l' ∈ pre, classify l' = some .initGameEventHandler := by
    intro pre l post e hm
    rcases pre with _ | ⟨a, _ | ⟨b, _ | ⟨c, pre⟩⟩⟩
    · simp only [List.nil_append, List.cons.injEq] at e
      obtain ⟨rfl, _⟩ := e
      exact absurd hm (by decide)
    · simp only [List.cons_append, List.nil_append, List.cons.injEq] at e
      obtain ⟨_, rfl, _⟩ := e
      exact absurd hm (by decide)
    · simp only [List.cons_append, List.nil_append, List.cons.injEq] at e
      obtain ⟨rfl, _, _⟩ := e
      exact ⟨_, List.mem_cons_self _ _, by decide⟩
    · simp at e
  ⟨hyp, parse_completes_after_initGame _ hyp⟩

end QuakeLog
